import Mathlib

/-!
# Verification of the automation-engine workflow core

A shallow embedding of the workflow graph model, graph processor, assembler
and validator of the `automation-engine` repository
(`src/models/workflow.py`, `src/integrations/n8n_processor.py`,
`src/modules/assembly.py`, `src/modules/validation.py`), together with
theorems settling the specification claims about them.

Conventions of the embedding:
* Python `dict`s keeping insertion order are embedded as association lists
  (`List (String × JValue)`); assignment to an existing key replaces the
  value in place, assignment to a fresh key appends (`dictInsert`).
* JSON values are the inductive `JValue`; numbers are embedded as `Int`
  (every numeric literal handled by the claims is integral).
* Fallible constructors and operations (pydantic validators, raising code
  paths) return `Except String α`, the error carrying the message of the
  exception raised by the Python source.
* String routines are implemented over `List Char` (`String.data`);
  Python's ASCII-range `str.lower` is `Char.toLower`.
-/

set_option maxRecDepth 20000

/-- Literal `{` character (written via its code point). -/
def lbrace : Char := Char.ofNat 123

/-- Literal `}` character (written via its code point). -/
def rbrace : Char := Char.ofNat 125

/-- JSON values: the payload of node `parameters`, `connections`,
`settings` and vault files (`Dict[str, Any]` in the Python source). -/
inductive JValue where
  | null
  | jbool (b : Bool)
  | jnum (n : Int)
  | jstr (s : String)
  | jarr (elems : List JValue)
  | jobj (fields : List (String × JValue))
deriving Inhabited

/-- Python `key in dict`. -/
def dictContains (d : List (String × JValue)) (k : String) : Bool :=
  d.any (fun p => p.1 == k)

/-- Python `dict.get(key)`. -/
def dictGet (d : List (String × JValue)) (k : String) : Option JValue :=
  (d.find? (fun p => p.1 == k)).map (fun p => p.2)

/-- Python `dict[key] = value`: replace in place if the key exists
(insertion order is kept), append otherwise. -/
def dictInsert (d : List (String × JValue)) (k : String) (v : JValue) :
    List (String × JValue) :=
  if dictContains d k then d.map (fun p => if p.1 == k then (k, v) else p)
  else d ++ [(k, v)]

/-- Escaping of one character inside a JSON string literal, as done by
Python's `json.dumps` for the characters that occur in this development. -/
def jsonEscapeChar (c : Char) : String :=
  if c = '"' then "\\\"" else if c = '\\' then "\\\\" else String.singleton c

/-- Escaping of a whole string for `json.dumps`. -/
def jsonEscape (s : String) : String :=
  String.join (s.data.map jsonEscapeChar)

mutual

/-- Python `json.dumps` with its default separators (`", "` and `": "`). -/
def jsonDumps : JValue → String
  | .null => "null"
  | .jbool true => "true"
  | .jbool false => "false"
  | .jnum n => toString n
  | .jstr s => "\"" ++ jsonEscape s ++ "\""
  | .jarr elems => "[" ++ String.intercalate ", " (jsonDumpsList elems) ++ "]"
  | .jobj fields =>
      "\x7b" ++ String.intercalate ", " (jsonDumpsFields fields) ++ "\x7d"

/-- `json.dumps` of the elements of an array. -/
def jsonDumpsList : List JValue → List String
  | [] => []
  | v :: rest => jsonDumps v :: jsonDumpsList rest

/-- `json.dumps` of the `"key": value` entries of an object. -/
def jsonDumpsFields : List (String × JValue) → List String
  | [] => []
  | (k, v) :: rest =>
      ("\"" ++ jsonEscape k ++ "\": " ++ jsonDumps v) :: jsonDumpsFields rest

end

/-- Python truthiness of a JSON value. -/
def jTruthy : JValue → Bool
  | .null => false
  | .jbool b => b
  | .jnum n => n != 0
  | .jstr s => s != ""
  | .jarr elems => !elems.isEmpty
  | .jobj fields => !fields.isEmpty

mutual

/-- Python `str()` of a JSON value (as interpolated by an f-string). -/
def pyStr : JValue → String
  | .null => "None"
  | .jbool true => "True"
  | .jbool false => "False"
  | .jnum n => toString n
  | .jstr s => s
  | .jarr elems => "[" ++ String.intercalate ", " (pyReprList elems) ++ "]"
  | .jobj fields =>
      "\x7b" ++ String.intercalate ", " (pyReprFields fields) ++ "\x7d"

/-- Python `repr()` of a JSON value (used inside container `str()`). -/
def pyRepr : JValue → String
  | .jstr s => "'" ++ s ++ "'"
  | v => pyStr v

/-- `repr` of the elements of a list. -/
def pyReprList : List JValue → List String
  | [] => []
  | v :: rest => pyRepr v :: pyReprList rest

/-- `repr` of the entries of a dict. -/
def pyReprFields : List (String × JValue) → List String
  | [] => []
  | (k, v) :: rest => ("'" ++ k ++ "': " ++ pyRepr v) :: pyReprFields rest

end

/-- Python `repr` of a list of strings, as produced by an f-string over a
`List[str]` value. -/
def pyStrListRepr (l : List String) : String :=
  "[" ++ String.intercalate ", " (l.map (fun s => "'" ++ s ++ "'")) ++ "]"

/-- Python `needle in haystack` on strings (substring containment). -/
def strContains (hay needle : String) : Bool :=
  decide (needle.data <:+: hay.data)

/-- Python `s.startswith(p)`. -/
def strStarts (s p : String) : Bool :=
  p.data.isPrefixOf s.data

/-- The whitespace class `\s` of Python's `re` module (ASCII range). -/
def pyIsSpace (c : Char) : Bool :=
  c = ' ' ∨ c = '\t' ∨ c = '\n' ∨ c = '\x0b' ∨ c = '\x0c' ∨ c = '\r'

theorem strContains_pos : strContains "a password here" "password" = true := by
  decide

theorem strContains_neg : strContains "nothing" "password" = false := by
  decide

theorem strStarts_stem : strStarts "slack_x" "slack" = true := by decide

/-!
## MD5 (`hashlib.md5`)

`WorkflowProcessor.add_idempotency_keys` salts nodes with the first 8 hex
characters of the MD5 digest of the workflow name.  The claims never
depend on the digest value, but the function is embedded faithfully so the
processing pipeline is complete.
-/

/-- Truncation to a 32-bit word. -/
def w32 (n : Nat) : Nat := n % 4294967296

/-- 32-bit modular addition. -/
def wadd (a b : Nat) : Nat := w32 (a + b)

/-- 32-bit left rotation (argument assumed `< 2^32`, `0 < s < 32`). -/
def rotl32 (x s : Nat) : Nat := w32 (x * 2 ^ s) + x / 2 ^ (32 - s)

/-- 32-bit bitwise complement. -/
def wnot (x : Nat) : Nat := 4294967295 - x

/-- The 64 MD5 sine-derived constants. -/
def md5K : List Nat :=
  [0xd76aa478, 0xe8c7b756, 0x242070db, 0xc1bdceee,
   0xf57c0faf, 0x4787c62a, 0xa8304613, 0xfd469501,
   0x698098d8, 0x8b44f7af, 0xffff5bb1, 0x895cd7be,
   0x6b901122, 0xfd987193, 0xa679438e, 0x49b40821,
   0xf61e2562, 0xc040b340, 0x265e5a51, 0xe9b6c7aa,
   0xd62f105d, 0x02441453, 0xd8a1e681, 0xe7d3fbc8,
   0x21e1cde6, 0xc33707d6, 0xf4d50d87, 0x455a14ed,
   0xa9e3e905, 0xfcefa3f8, 0x676f02d9, 0x8d2a4c8a,
   0xfffa3942, 0x8771f681, 0x6d9d6122, 0xfde5380c,
   0xa4beea44, 0x4bdecfa9, 0xf6bb4b60, 0xbebfbc70,
   0x289b7ec6, 0xeaa127fa, 0xd4ef3085, 0x04881d05,
   0xd9d4d039, 0xe6db99e5, 0x1fa27cf8, 0xc4ac5665,
   0xf4292244, 0x432aff97, 0xab9423a7, 0xfc93a039,
   0x655b59c3, 0x8f0ccc92, 0xffeff47d, 0x85845dd1,
   0x6fa87e4f, 0xfe2ce6e0, 0xa3014314, 0x4e0811a1,
   0xf7537e82, 0xbd3af235, 0x2ad7d2bb, 0xeb86d391]

/-- The 64 MD5 per-round shift amounts. -/
def md5S : List Nat :=
  [7, 12, 17, 22, 7, 12, 17, 22, 7, 12, 17, 22, 7, 12, 17, 22,
   5, 9, 14, 20, 5, 9, 14, 20, 5, 9, 14, 20, 5, 9, 14, 20,
   4, 11, 16, 23, 4, 11, 16, 23, 4, 11, 16, 23, 4, 11, 16, 23,
   6, 10, 15, 21, 6, 10, 15, 21, 6, 10, 15, 21, 6, 10, 15, 21]

/-- UTF-8 encoding of one character (Python `str.encode()`). -/
def utf8Bytes (c : Char) : List Nat :=
  let n := c.toNat
  if n < 0x80 then [n]
  else if n < 0x800 then [0xc0 + n / 64, 0x80 + n % 64]
  else if n < 0x10000 then
    [0xe0 + n / 4096, 0x80 + n / 64 % 64, 0x80 + n % 64]
  else
    [0xf0 + n / 262144, 0x80 + n / 4096 % 64, 0x80 + n / 64 % 64,
     0x80 + n % 64]

/-- `k` little-endian bytes of `n`. -/
def leBytes : Nat → Nat → List Nat
  | 0, _ => []
  | k + 1, n => n % 256 :: leBytes k (n / 256)

/-- MD5 padding: `0x80`, zeros to 56 mod 64, then the 64-bit little-endian
bit length. -/
def md5Pad (msg : List Nat) : List Nat :=
  let len := msg.length
  let zeros := (64 + 56 - (len + 1) % 64) % 64
  msg ++ [0x80] ++ List.replicate zeros 0 ++ leBytes 8 (len * 8 % 2 ^ 64)

/-- Little-endian 32-bit word `g` of a 64-byte chunk. -/
def md5Word (chunk : List Nat) (g : Nat) : Nat :=
  match (chunk.drop (4 * g)).take 4 with
  | [b0, b1, b2, b3] => b0 + 256 * (b1 + 256 * (b2 + 256 * b3))
  | _ => 0

/-- One of the 64 MD5 operations, acting on the running `(a, b, c, d)`. -/
def md5Op (chunk : List Nat) (st : Nat × Nat × Nat × Nat) (i : Nat) :
    Nat × Nat × Nat × Nat :=
  let (a, b, c, d) := st
  let fg : Nat × Nat :=
    if i < 16 then ((b &&& c) ||| (wnot b &&& d), i)
    else if i < 32 then ((d &&& b) ||| (wnot d &&& c), (5 * i + 1) % 16)
    else if i < 48 then (b ^^^ c ^^^ d, (3 * i + 5) % 16)
    else (c ^^^ (b ||| wnot d), (7 * i) % 16)
  let f := wadd (wadd (wadd fg.1 a) (md5K.getD i 0)) (md5Word chunk fg.2)
  (d, wadd b (rotl32 f (md5S.getD i 0)), b, c)

/-- Process one 64-byte chunk into the accumulated state. -/
def md5Chunk (st : Nat × Nat × Nat × Nat) (chunk : List Nat) :
    Nat × Nat × Nat × Nat :=
  let (a0, b0, c0, d0) := st
  let r := (List.range 64).foldl (md5Op chunk) (a0, b0, c0, d0)
  (wadd a0 r.1, wadd b0 r.2.1, wadd c0 r.2.2.1, wadd d0 r.2.2.2)

/-- Lowercase hex digit. -/
def hexDigit (n : Nat) : Char :=
  if n < 10 then Char.ofNat (48 + n) else Char.ofNat (87 + n)

/-- Two lowercase hex characters of a byte. -/
def byteHex (b : Nat) : List Char := [hexDigit (b / 16), hexDigit (b % 16)]

/-- `hashlib.md5(s.encode()).hexdigest()`. -/
def md5Hex (s : String) : String :=
  let msg := md5Pad ((s.data.map utf8Bytes).flatten)
  let chunks := (List.range (msg.length / 64)).map
    (fun i => (msg.drop (64 * i)).take 64)
  let st := chunks.foldl md5Chunk (0x67452301, 0xefcdab89, 0x98badcfe, 0x10325476)
  ⟨((leBytes 4 st.1 ++ leBytes 4 st.2.1 ++ leBytes 4 st.2.2.1 ++
     leBytes 4 st.2.2.2).map byteHex).flatten⟩

/-- Sanity vector for the MD5 embedding (RFC 1321 test suite). -/
theorem md5Hex_abc : md5Hex "abc" = "900150983cd24fb0d6963f7d28e17f72" := by
  decide

/-- Sanity vector for the MD5 embedding (RFC 1321 test suite). -/
theorem md5Hex_empty : md5Hex "" = "d41d8cd98f00b204e9800998ecf8427e" := by
  decide

/-!
## Workflow graph model (`src/models/workflow.py`)
-/

/-- Position coordinates for n8n nodes (`NodePosition`). -/
structure NodePosition where
  x : Int
  y : Int
deriving DecidableEq, Inhabited

/-- Individual n8n workflow node (`N8nNode`). -/
structure N8nNode where
  id : String
  name : String
  type : String
  position : NodePosition
  parameters : List (String × JValue)
  credentials : Option (List (String × JValue))
  retries : Int
  retry_on_fail : Bool
deriving Inhabited

/-- The `valid_chars` set of `N8nNode.validate_naming_convention`. -/
def nodeValidChars : List Char :=
  "abcdefghijklmnopqrstuvwxyzABCDEFGHIJKLMNOPQRSTUVWXYZ0123456789_".data

/-- The special-character blacklist of `N8nNode.validate_naming_convention`. -/
def nodeSpecialChars : List Char :=
  "!@#$%^&*()-+=\x7b\x7d[]|\\:;\"<>?,./~`".data

/-- `N8nNode.validate_naming_convention`: `true` iff neither of the two
checks raises. -/
def nodeNameOk (v : String) : Bool :=
  (v.data.all (fun c => nodeValidChars.contains c)) &&
  !(v.data.contains ' ' || v.data.any Char.isUpper ||
    v.data.any (fun c => nodeSpecialChars.contains c))

/-- `N8nNode(...)` construction: pydantic runs `validate_naming_convention`
and `validate_retry_count`; a failing validator raises. -/
def mkN8nNode (id name type : String) (position : NodePosition)
    (parameters : List (String × JValue))
    (credentials : Option (List (String × JValue)))
    (retries : Int) (retry_on_fail : Bool) : Except String N8nNode :=
  if !nodeNameOk name then
    .error "Node names should use snake_case convention"
  else if retries != 3 then
    .error "Nodes should use exactly 3 retries for exponential backoff pattern"
  else
    .ok ⟨id, name, type, position, parameters, credentials, retries, retry_on_fail⟩

/-- n8n workflow model (`N8nWorkflow`); `created_at`/`updated_at` carry no
behavior touched by the claims and are omitted. -/
structure N8nWorkflow where
  name : String
  nodes : List N8nNode
  connections : List (String × JValue)
  settings : List (String × JValue)
  id : Option String
  active : Bool
  tags : List String
deriving Inhabited

/-- The `valid_chars` set of `N8nWorkflow.validate_workflow_naming` (also
the character set of the `^[a-z0-9_]+$` snake_case regex). -/
def wfValidChars : List Char := "abcdefghijklmnopqrstuvwxyz0123456789_".data

/-- `re.sub(r'_+', '_', l)`: collapse runs of underscores; `prevU` records
whether the previously emitted character was an underscore of a run. -/
def collapseUnders : Bool → List Char → List Char
  | _, [] => []
  | prevU, c :: rest =>
    if c = '_' then
      if prevU then collapseUnders true rest
      else '_' :: collapseUnders true rest
    else c :: collapseUnders false rest

/-- Predicate for `.strip('_')`. -/
def isU (c : Char) : Bool := c == '_'

/-- Python `.strip('_')`. -/
def stripUnders (l : List Char) : List Char :=
  ((l.dropWhile isU).reverse.dropWhile isU).reverse

/-- `N8nWorkflow.validate_workflow_naming`: lowercase, spaces and hyphens
to `_`, other invalid characters to `_`, collapse `_+`, strip `_`. -/
def wfNormalizeName (v : String) : String :=
  let step1 := v.data.map Char.toLower
  let step2 := step1.map (fun c => if c = ' ' ∨ c = '-' then '_' else c)
  let step3 := step2.map (fun c => if wfValidChars.contains c then c else '_')
  ⟨stripUnders (collapseUnders false step3)⟩

/-- `N8nWorkflow(...)` construction: pydantic normalizes the name
(`validate_workflow_naming`, never fails) and rejects an empty node list
(`validate_required_nodes`). -/
def mkN8nWorkflow (name : String) (nodes : List N8nNode)
    (connections settings : List (String × JValue)) (id : Option String)
    (active : Bool) (tags : List String) : Except String N8nWorkflow :=
  if nodes.isEmpty then .error "Workflow must contain at least one node"
  else .ok ⟨wfNormalizeName name, nodes, connections, settings, id, active, tags⟩

/-- `N8nWorkflow.validate_node_connections`: report dangling source and
destination node references.  (On a `connections` value whose entries are
not objects the Python source would raise `AttributeError`; that untyped
branch is outside every claim and is embedded as "no error reported".) -/
def validate_node_connections (w : N8nWorkflow) : List String :=
  let node_ids := w.nodes.map (fun n => n.id)
  w.connections.flatMap (fun p =>
    if !node_ids.contains p.1 then
      ["Connection source node '" ++ p.1 ++ "' not found in workflow"]
    else
      match p.2 with
      | .jobj outs =>
        outs.flatMap (fun q =>
          let dests := match q.2 with
            | .jarr l => l
            | other => [other]
          dests.flatMap (fun dest =>
            match dest with
            | .jobj f =>
              match dictGet f "node" with
              | some v =>
                if jTruthy v &&
                    !(match v with
                      | .jstr s => node_ids.contains s
                      | _ => false) then
                  ["Connection destination node '" ++ pyStr v ++
                   "' not found in workflow"]
                else []
              | none => []
            | _ => []))
      | _ => [])

/-- One node of `N8nWorkflow.to_n8n_json`: `credentials` is included only
when truthy (present and non-empty). -/
def node_to_json (node : N8nNode) : JValue :=
  .jobj ([("id", .jstr node.id), ("name", .jstr node.name),
          ("type", .jstr node.type),
          ("position", .jarr [.jnum node.position.x, .jnum node.position.y]),
          ("parameters", .jobj node.parameters)] ++
         (match node.credentials with
          | some c => if !c.isEmpty then [("credentials", .jobj c)] else []
          | none => []))

/-- `N8nWorkflow.to_n8n_json`: the workflow `id` key is included only when
truthy (present and non-empty). -/
def to_n8n_json (w : N8nWorkflow) : JValue :=
  .jobj ([("name", .jstr w.name),
          ("nodes", .jarr (w.nodes.map node_to_json)),
          ("connections", .jobj w.connections),
          ("settings", .jobj w.settings),
          ("active", .jbool w.active),
          ("tags", .jarr (w.tags.map JValue.jstr))] ++
         (match w.id with
          | some i => if i != "" then [("id", .jstr i)] else []
          | none => []))

/-- One node of `N8nWorkflow.from_n8n_json`: `position` defaults to
`[0, 0]`, `parameters` to `{}`, `credentials` to `None`; `retries` and
`retry_on_fail` take the field defaults `3` and `True`; shape violations
raise. -/
def node_from_json (node_data : JValue) : Except String N8nNode :=
  match node_data with
  | .jobj f => do
    let id ← match dictGet f "id" with
      | some (.jstr s) => Except.ok s
      | some _ => Except.error "node id must be a string"
      | none => Except.error "KeyError: 'id'"
    let name ← match dictGet f "name" with
      | some (.jstr s) => Except.ok s
      | some _ => Except.error "node name must be a string"
      | none => Except.error "KeyError: 'name'"
    let type ← match dictGet f "type" with
      | some (.jstr s) => Except.ok s
      | some _ => Except.error "node type must be a string"
      | none => Except.error "KeyError: 'type'"
    let position := (dictGet f "position").getD (.jarr [.jnum 0, .jnum 0])
    let pos ← match position with
      | .jarr (.jnum x :: .jnum y :: _) => Except.ok (NodePosition.mk x y)
      | _ => Except.error "invalid node position"
    let parameters ← match dictGet f "parameters" with
      | some (.jobj p) => Except.ok p
      | some _ => Except.error "node parameters must be an object"
      | none => Except.ok []
    let credentials ← match dictGet f "credentials" with
      | some (.jobj c) => Except.ok (some c)
      | some .null => Except.ok none
      | some _ => Except.error "node credentials must be an object"
      | none => Except.ok none
    mkN8nNode id name type pos parameters credentials 3 true
  | _ => Except.error "node data is not an object"

/-- The `tags` field of `from_n8n_json` (pydantic `List[str]`
validation). -/
def tags_from_json : List JValue → Except String (List String)
  | [] => .ok []
  | .jstr s :: rest => do
    let ts ← tags_from_json rest
    .ok (s :: ts)
  | _ :: _ => .error "tags must be strings"

/-- The node loop of `from_n8n_json`. -/
def nodes_from_json : List JValue → Except String (List N8nNode)
  | [] => .ok []
  | j :: rest => do
    let nd ← node_from_json j
    let nds ← nodes_from_json rest
    .ok (nd :: nds)

/-- `N8nWorkflow.from_n8n_json`: build nodes, then construct the workflow
with defaults `connections={}`, `settings={}`, `id=None`, `active=False`,
`tags=[]`. -/
def from_n8n_json (data : JValue) : Except String N8nWorkflow :=
  match data with
  | .jobj f => do
    let nodesJ ← match dictGet f "nodes" with
      | some (.jarr l) => Except.ok l
      | none => Except.ok []
      | some _ => Except.error "nodes must be an array"
    let nodes ← nodes_from_json nodesJ
    let name ← match dictGet f "name" with
      | some (.jstr s) => Except.ok s
      | some _ => Except.error "workflow name must be a string"
      | none => Except.error "KeyError: 'name'"
    let connections ← match dictGet f "connections" with
      | some (.jobj c) => Except.ok c
      | none => Except.ok []
      | some _ => Except.error "connections must be an object"
    let settings ← match dictGet f "settings" with
      | some (.jobj s) => Except.ok s
      | none => Except.ok []
      | some _ => Except.error "settings must be an object"
    let id ← match dictGet f "id" with
      | some (.jstr s) => Except.ok (some s)
      | some .null => Except.ok none
      | none => Except.ok none
      | some _ => Except.error "workflow id must be a string"
    let active ← match dictGet f "active" with
      | some (.jbool b) => Except.ok b
      | none => Except.ok false
      | some _ => Except.error "active must be a boolean"
    let tags ← match dictGet f "tags" with
      | some (.jarr l) => tags_from_json l
      | none => Except.ok []
      | some _ => Except.error "tags must be an array"
    mkN8nWorkflow name nodes connections settings id active tags
  | _ => Except.error "workflow data is not an object"

/-!
## Graph processor (`src/integrations/n8n_processor.py`)
-/

/-- The snake_case regex `re.match(r'^[a-z0-9_]+$', l)` on a char list:
non-empty and every character lowercase alphanumeric or underscore. -/
def snakeCaseOk (l : List Char) : Bool :=
  !l.isEmpty && l.all (fun c => wfValidChars.contains c)

/-- `WorkflowProcessor._validate_node_structure`: structural errors of one
raw node object.  An `Except.error` stands for the `TypeError` /
`AttributeError` Python raises on untyped shapes (non-dict node, non-string
truthy name), which the loader's generic handler turns into a
"Failed to load" error. -/
def validate_node_structure (node : JValue) (index : Nat) :
    Except String (List String) :=
  match node with
  | .jobj f => do
    let pre := "Node " ++ toString index
    let requiredErrs :=
      (["id", "name", "type", "position"].filter
        (fun fld => !dictContains f fld)).map
        (fun fld => pre ++ ": Missing required field '" ++ fld ++ "'")
    let nameErrs ← match dictGet f "name" with
      | some (.jstr s) =>
        if s != "" && !snakeCaseOk (s.data.map Char.toLower) then
          Except.ok [pre ++ ": Node name '" ++ s ++
            "' should use snake_case convention"]
        else Except.ok ([] : List String)
      | some v =>
        if jTruthy v then Except.error "node name has no attribute 'lower'"
        else Except.ok []
      | none => Except.ok []
    let posErrs := match (dictGet f "position").getD (.jarr []) with
      | .jarr l =>
        if l.length != 2 then
          [pre ++ ": Position must be array of two numbers [x, y]"]
        else
          (l.enum.filter (fun q =>
            match q.2 with
            | .jnum _ => false
            | .jbool _ => false   -- Python bool is an instance of int
            | _ => true)).map (fun q =>
              pre ++ ": Position coordinate " ++ toString q.1 ++
              " must be a number")
      | _ => [pre ++ ": Position must be array of two numbers [x, y]"]
    .ok (requiredErrs ++ nameErrs ++ posErrs)
  | _ => Except.error "argument of type 'node' is not iterable"

/-- `WorkflowProcessor.validate_workflow_json` on a parsed top-level
object: missing required fields, per-node structural errors, connection
shape. -/
def validate_workflow_json (workflow_data : List (String × JValue)) :
    Except String (List String) := do
  let requiredErrs :=
    (["name", "nodes", "connections"].filter
      (fun fld => !dictContains workflow_data fld)).map
      (fun fld => "Missing required field: " ++ fld)
  let nodeErrs ← match (dictGet workflow_data "nodes").getD (.jarr []) with
    | .jarr ns => do
      let ll ← ns.enum.mapM (fun p => validate_node_structure p.2 p.1)
      Except.ok ll.flatten
    | _ => Except.ok ["'nodes' must be an array"]
  let connErrs := match (dictGet workflow_data "connections").getD (.jobj []) with
    | .jobj _ => ([] : List String)
    | _ => ["'connections' must be an object"]
  .ok (requiredErrs ++ nodeErrs ++ connErrs)

/-- The state of the vault file `<vault>/<name>.json` as seen by
`load_workflow_from_vault`: absent, present but not valid JSON (with the
decoder's message), or parsed JSON. -/
inductive VaultFile where
  | absent
  | malformed (msg : String)
  | parsed (j : JValue)

/-- `WorkflowProcessor.load_workflow_from_vault` with the default vault
path.  Note the control flow of the source: the `WorkflowProcessorError`
raised for structural errors inside the `try` block is caught by the
generic `except Exception` handler and re-wrapped, so its final message
starts with "Failed to load workflow". -/
def load_workflow_from_vault (workflow_name : String) (file : VaultFile) :
    Except String N8nWorkflow :=
  match file with
  | .absent =>
    .error ("Workflow '" ++ workflow_name ++
      "' not found in vault: automation_vault/" ++ workflow_name ++ ".json")
  | .malformed msg =>
    .error ("Invalid JSON in workflow '" ++ workflow_name ++ "': " ++ msg)
  | .parsed j =>
    match j with
    | .jobj workflow_data =>
      match validate_workflow_json workflow_data with
      | .error e =>
        .error ("Failed to load workflow '" ++ workflow_name ++ "': " ++ e)
      | .ok errors =>
        if !errors.isEmpty then
          .error ("Failed to load workflow '" ++ workflow_name ++
            "': Invalid workflow JSON: " ++ String.intercalate "; " errors)
        else
          match from_n8n_json j with
          | .error e =>
            .error ("Failed to load workflow '" ++ workflow_name ++ "': " ++ e)
          | .ok wf => .ok wf
    | _ =>
      .error ("Failed to load workflow '" ++ workflow_name ++
        "': top-level JSON is not an object")

/-- `WorkflowProcessor._normalize_name`: lowercase, whitespace/hyphen runs
to `_` (embedded per character, which after the later `_+` collapse yields
the same string the run-based `re.sub` does), drop other invalid
characters, collapse `_+`, strip `_`, default `"unnamed"`. -/
def normalize_name (name : String) : String :=
  let step1 := name.data.map Char.toLower
  let step2 := step1.map (fun c => if pyIsSpace c ∨ c = '-' then '_' else c)
  let step3 := step2.filter (fun c => wfValidChars.contains c)
  let step4 := stripUnders (collapseUnders false step3)
  if step4.isEmpty then "unnamed" else ⟨step4⟩

/-- The known integration tag list of `_add_integration_prefix`'s skip
check; the source tests `name.startswith(p.split('_')[0])` for `p` in
`["slack_", "hubspot_", "salesforce_", "gmail_", "notion_"]`, i.e. against
these stems. -/
def integrationStems : List String :=
  ["slack", "hubspot", "salesforce", "gmail", "notion"]

/-- The `type_prefixes` mapping of `_add_integration_prefix`. -/
def typeTagMap : List (String × String) :=
  [("n8n-nodes-base.slack", "slack_"),
   ("n8n-nodes-base.hubspot", "hubspot_"),
   ("n8n-nodes-base.salesforce", "salesforce_"),
   ("n8n-nodes-base.gmail", "gmail_"),
   ("n8n-nodes-base.notion", "notion_"),
   ("n8n-nodes-base.webhook", "webhook_")]

/-- `WorkflowProcessor._add_integration_prefix`: skip when the name starts
with a known stem, otherwise prepend the tag mapped from the node type
(empty mapping result means the name is returned unchanged). -/
def add_integration_tag (node : N8nNode) : String :=
  let name := node.name
  if integrationStems.any (fun stem => strStarts name stem) then name
  else
    match typeTagMap.find? (fun kv => kv.1 == node.type) with
    | some kv => kv.2 ++ name
    | none => name

/-- The loop body of `enforce_naming_conventions` on one node: normalize
the node name, then apply the integration tag.  (Field assignment on a
pydantic model does not re-validate, so this is a pure update.) -/
def enforce_node_naming (nd : N8nNode) : N8nNode :=
  let nd' := { nd with name := normalize_name nd.name }
  { nd' with name := add_integration_tag nd' }

/-- `WorkflowProcessor.enforce_naming_conventions`: normalize the workflow
name, then normalize every node name and apply the integration tag. -/
def enforce_naming_conventions (w : N8nWorkflow) : N8nWorkflow :=
  { w with
    name := normalize_name w.name,
    nodes := w.nodes.map enforce_node_naming }

/-- The loop body of `WorkflowProcessor.inject_retry_logic` on one node:
skip a node already having `retries == 3 and retry_on_fail`; otherwise set
both and, when the `retryOnFail` parameter key is absent, write all three
retry parameters. -/
def inject_retry_node (nd : N8nNode) : N8nNode :=
  if nd.retries == 3 && nd.retry_on_fail then nd
  else
    let nd' := { nd with retries := 3, retry_on_fail := true }
    if dictContains nd'.parameters "retryOnFail" then nd'
    else
      { nd' with parameters :=
          (dictInsert (dictInsert (dictInsert nd'.parameters
            "retryOnFail" (.jbool true))
            "maxTries" (.jnum 3))
            "waitBetweenTries" (.jnum 200)) }

/-- `WorkflowProcessor.inject_retry_logic`: the loop body applied to every
node. -/
def inject_retry_logic (w : N8nWorkflow) : N8nWorkflow :=
  { w with nodes := w.nodes.map inject_retry_node }

/-- `WorkflowProcessor._supports_idempotency`. -/
def supports_idempotency (node : N8nNode) : Bool :=
  ["n8n-nodes-base.googleSheets", "n8n-nodes-base.airtable",
   "n8n-nodes-base.salesforce", "n8n-nodes-base.hubspot",
   "n8n-nodes-base.notion"].contains node.type

/-- `WorkflowProcessor.add_idempotency_keys`: salt from the first 8 hex
characters of the MD5 of the workflow name; idempotency parameters only on
supporting node types. -/
def add_idempotency_keys (w : N8nWorkflow) (key_field : String) : N8nWorkflow :=
  let workflow_salt := (md5Hex w.name).take 8
  { w with
    nodes := w.nodes.map (fun nd =>
      if supports_idempotency nd then
        { nd with parameters :=
            (dictInsert (dictInsert (dictInsert nd.parameters
              "idempotencyKey"
                (.jstr ("\x7b\x7b hash('" ++ key_field ++ "') \x7d\x7d")))
              "deduplicationField" (.jstr key_field))
              "workflowSalt" (.jstr workflow_salt)) }
      else nd) }

/-- The logging shadow node `add_logging_instrumentation` builds for node
`node` at enumeration index `i` of workflow `wname`. -/
def log_node_for (wname : String) (i : Nat) (node : N8nNode) :
    Except String N8nNode :=
  mkN8nNode ("log_" ++ node.id ++ "_" ++ toString i)
    ("log__" ++ node.name) "n8n-nodes-base.set"
    ⟨node.position.x + 300, node.position.y⟩
    [("values", .jobj
       [("timestamp", .jstr "\x7b\x7b new Date().toISOString() \x7d\x7d"),
        ("node_id", .jstr node.id),
        ("node_name", .jstr node.name),
        ("workflow_name", .jstr wname),
        ("execution_time", .jstr "\x7b\x7b $now - $nodeExecutionStart \x7d\x7d"),
        ("success", .jstr "\x7b\x7b $node.success \x7d\x7d"),
        ("item_count", .jstr "\x7b\x7b $input.all().length \x7d\x7d")]),
     ("options", .jobj [("dotNotation", .jbool true)])]
    none 3 true

/-- `WorkflowProcessor.add_logging_instrumentation`: one `log__` shadow
node per node not already prefixed `log__`/`error__`, appended at the
end. -/
def add_logging_instrumentation (w : N8nWorkflow) :
    Except String N8nWorkflow := do
  let logging_nodes ←
    (w.nodes.enum.filter (fun p =>
      !(strStarts p.2.name "log__" || strStarts p.2.name "error__"))).mapM
      (fun p => log_node_for w.name p.1 p.2)
  .ok { w with nodes := w.nodes ++ logging_nodes }

/-- The error shadow node `add_error_handling` builds for node `node` at
enumeration index `i` of workflow `wname`. -/
def error_node_for (wname : String) (i : Nat) (node : N8nNode) :
    Except String N8nNode :=
  mkN8nNode ("error_" ++ node.id ++ "_" ++ toString i)
    ("error__" ++ node.name) "n8n-nodes-base.webhook"
    ⟨node.position.x, node.position.y + 300⟩
    [("path", .jstr "/error-handler"),
     ("httpMethod", .jstr "POST"),
     ("responseMode", .jstr "onReceived"),
     ("errorData", .jobj
       [("original_node", .jstr node.name),
        ("workflow_name", .jstr wname),
        ("timestamp", .jstr "\x7b\x7b new Date().toISOString() \x7d\x7d"),
        ("error_message", .jstr "\x7b\x7b $json.error \x7d\x7d"),
        ("input_data", .jstr "\x7b\x7b $json.input \x7d\x7d")])]
    none 3 true

/-- `WorkflowProcessor.add_error_handling`: one `error__` shadow node per
node not already prefixed `error__`, appended at the end;
`_update_error_connections` is a documented no-op. -/
def add_error_handling (w : N8nWorkflow) : Except String N8nWorkflow := do
  let error_nodes ←
    (w.nodes.enum.filter (fun p => !strStarts p.2.name "error__")).mapM
      (fun p => error_node_for w.name p.1 p.2)
  .ok { w with nodes := w.nodes ++ error_nodes }

/-- The re-prefixed clone `combine_workflows` builds of a node of a
subsequent source workflow (position offset, id and name prefixed with the
source workflow's name). -/
def combined_node (wname : String) (x_offset y_offset : Int)
    (node : N8nNode) : Except String N8nNode :=
  mkN8nNode (wname ++ "_" ++ node.id) (wname ++ "_" ++ node.name) node.type
    ⟨node.position.x + x_offset, node.position.y + y_offset⟩
    node.parameters node.credentials node.retries node.retry_on_fail

/-- The destination rewriting of `combine_workflows`: in a list of
destinations, every dict with a `node` key has it re-pointed at the
prefixed id; other values pass through unchanged. -/
def rewrite_destinations (wname : String) (destinations : JValue) : JValue :=
  match destinations with
  | .jarr dl =>
    .jarr (dl.map (fun dest =>
      match dest with
      | .jobj f =>
        if dictContains f "node" then
          .jobj (dictInsert f "node"
            (.jstr (wname ++ "_" ++ pyStr ((dictGet f "node").getD .null))))
        else .jobj f
      | other => other))
  | other => other

/-- The connection rewriting loop of `combine_workflows`: each source key
gains the `<wname>_` tag and its targets (which Python iterates with
`.items()`, raising on a non-dict) are rebuilt output by output. -/
def combine_rewrite_conns (wname : String) (src : List (String × JValue))
    (conns : List (String × JValue)) :
    Except String (List (String × JValue)) :=
  src.foldlM (fun acc p =>
    match p.2 with
    | .jobj targets =>
      .ok (dictInsert acc (wname ++ "_" ++ p.1)
        (.jobj (targets.foldl
          (fun inner q => dictInsert inner q.1 (rewrite_destinations wname q.2))
          [])))
    | _ => .error "connections value has no attribute 'items'") conns

/-- The node loop of `combine_workflows` for one subsequent source
workflow. -/
def combine_nodes_loop (wname : String) (x_offset y_offset : Int) :
    List N8nNode → Except String (List N8nNode)
  | [] => .ok []
  | nd :: rest => do
    let nd' ← combined_node wname x_offset y_offset nd
    let nds ← combine_nodes_loop wname x_offset y_offset rest
    .ok (nd' :: nds)

/-- The per-source-workflow step of `combine_workflows` for the second and
subsequent workflows: append re-prefixed nodes, rewrite connections, and
advance the horizontal offset by 800. -/
def combine_step (acc : N8nWorkflow × Int) (wf : N8nWorkflow) :
    Except String (N8nWorkflow × Int) := do
  let (combined, x_offset) := acc
  let new_nodes ← combine_nodes_loop wf.name x_offset 0 wf.nodes
  let conns ← combine_rewrite_conns wf.name wf.connections combined.connections
  .ok ({ combined with
          nodes := combined.nodes ++ new_nodes,
          connections := conns }, x_offset + 800)

/-- `WorkflowProcessor.combine_workflows`: error on `[]`; a renamed
shallow clone for one workflow; otherwise start from the first workflow
verbatim and fold in the rest starting at horizontal offset 400. -/
def combine_workflows (workflows : List N8nWorkflow)
    (combined_name : String) : Except String N8nWorkflow :=
  match workflows with
  | [] => .error "Cannot combine empty list of workflows"
  | [original] =>
    mkN8nWorkflow combined_name original.nodes original.connections
      original.settings original.id original.active original.tags
  | first :: rest => do
    let init ← mkN8nWorkflow combined_name first.nodes first.connections
      first.settings none false []
    let final ← rest.foldlM combine_step (init, 400)
    .ok final.1

/-!
## Assembler (`src/modules/assembly.py`)
-/

/-- `WorkflowAssembler._generate_workflow_name`: lowercased title, spaces
and hyphens to `_`, other non-alphanumeric characters dropped, suffixed
`_automation`. -/
def generate_workflow_name (title : String) : String :=
  let n1 := title.data.map Char.toLower
  let n2 := n1.map (fun c => if c = ' ' then '_' else c)
  let n3 := n2.map (fun c => if c = '-' then '_' else c)
  let n4 := n3.filter (fun c => c.isAlphanum ∨ c = '_')
  (⟨n4⟩ : String) ++ "_automation"

/-- `WorkflowAssembler.assemble_workflows`: load each named template from
the vault, combine under the opportunity-derived name, then run the
processing pipeline (naming → retries → idempotency → logging → error
handling).  Connection validation at the end only logs warnings.  Any
failure is wrapped in a `WorkflowAssemblerError`. -/
def assemble_workflows (vault : String → VaultFile)
    (workflow_names : List String) (opportunity_title : String) :
    Except String N8nWorkflow :=
  let pipeline : Except String N8nWorkflow := do
    let workflows ← workflow_names.mapM
      (fun n => load_workflow_from_vault n (vault n))
    let combined_name := generate_workflow_name opportunity_title
    let combined ← combine_workflows workflows combined_name
    let c1 := enforce_naming_conventions combined
    let c2 := inject_retry_logic c1
    let c3 := add_idempotency_keys c2 "email"
    let c4 ← add_logging_instrumentation c3
    add_error_handling c4
  match pipeline with
  | .ok w => .ok w
  | .error e => .error ("Failed to assemble workflows: " ++ e)

/-!
## Validator (`src/modules/validation.py`)
-/

/-- `ValidationResult` (timestamp and structured details omitted: no claim
touches them). -/
structure ValidationResult where
  passed : Bool
  level : String
  message : String
deriving DecidableEq, Inhabited

/-- `WorkflowValidator._validate_json_schema` with the default rules
(`max_nodes = 50`). -/
def validate_json_schema (w : N8nWorkflow) : List ValidationResult :=
  (if w.name = "" then
    [⟨false, "schema", "Workflow name is required"⟩]
   else [⟨true, "schema", "Workflow name is valid"⟩]) ++
  (if w.nodes.length = 0 then
    [⟨false, "schema", "Workflow must contain at least one node"⟩]
   else if w.nodes.length > 50 then
    [⟨false, "schema",
      "Too many nodes: " ++ toString w.nodes.length ++ " > 50"⟩]
   else
    [⟨true, "schema",
      "Node count is acceptable: " ++ toString w.nodes.length⟩]) ++
  (let connection_errors := validate_node_connections w
   if !connection_errors.isEmpty then
    [⟨false, "schema",
      "Connection errors: " ++ String.intercalate "; " connection_errors⟩]
   else [⟨true, "schema", "All node connections are valid"⟩])

/-- `WorkflowValidator._validate_business_logic` with the default rules
(`required_error_handling` and `required_retry_logic` both `True`). -/
def validate_business_logic (w : N8nWorkflow) : List ValidationResult :=
  (let error_nodes := w.nodes.filter (fun n => strStarts n.name "error__")
   if error_nodes.isEmpty then
    [⟨false, "logic", "Error handling nodes are missing"⟩]
   else
    [⟨true, "logic",
      "Error handling implemented: " ++ toString error_nodes.length ++
      " nodes"⟩]) ++
  (let nodes_with_retries := w.nodes.filter (fun n => n.retries > 0)
   if nodes_with_retries.length = 0 then
    [⟨false, "logic", "Retry logic is missing from all nodes"⟩]
   else
    [⟨true, "logic",
      "Retry logic implemented: " ++ toString nodes_with_retries.length ++
      " nodes"⟩])

/-- `json.dumps(node.parameters)`, the scan subject of the secret and
environment-variable checks. -/
def node_params_str (node : N8nNode) : String :=
  jsonDumps (.jobj node.parameters)

/-- The loop body of `WorkflowValidator._find_hardcoded_secrets` for one
node: a `password`/`token` substring of the serialized parameters is
flagged unless the template delimiter `{{` occurs somewhere in that same
serialization. -/
def node_secret_flags (node : N8nNode) : List String :=
  let params_str := node_params_str node
  (if strContains params_str "password" && !strContains params_str "\x7b\x7b"
   then ["Potential hardcoded password in " ++ node.name] else []) ++
  (if strContains params_str "token" && !strContains params_str "\x7b\x7b"
   then ["Potential hardcoded token in " ++ node.name] else [])

/-- `WorkflowValidator._find_hardcoded_secrets`. -/
def find_hardcoded_secrets (w : N8nWorkflow) : List String :=
  w.nodes.flatMap node_secret_flags

/-- A character the regex class `[A-Z_]` accepts. -/
def isEnvNameChar (c : Char) : Bool := ('A' ≤ c ∧ c ≤ 'Z') ∨ c = '_'

/-- An attempt to match `\$\{\{\s*\$env\.([A-Z_]+)\s*\}\}` at the head of
the character list, returning the captured variable name. -/
def envMatchAt (cs : List Char) : Option String :=
  match cs with
  | c1 :: c2 :: c3 :: rest =>
    if c1 = '$' ∧ c2 = lbrace ∧ c3 = lbrace then
      match rest.dropWhile pyIsSpace with
      | '$' :: 'e' :: 'n' :: 'v' :: '.' :: rest2 =>
        let nm := rest2.takeWhile isEnvNameChar
        if nm.isEmpty then none
        else
          match (rest2.drop nm.length).dropWhile pyIsSpace with
          | c4 :: c5 :: _ =>
            if c4 = rbrace ∧ c5 = rbrace then some ⟨nm⟩ else none
          | _ => none
      | _ => none
    else none
  | _ => none

/-- All matches of the environment-variable pattern in a string
(`re.findall`; matches of this pattern cannot overlap, so scanning every
suffix finds exactly the `findall` results). -/
def envMatches : List Char → List String
  | [] => []
  | c :: rest =>
    (match envMatchAt (c :: rest) with
     | some nm => [nm]
     | none => []) ++ envMatches rest

/-- `WorkflowValidator._extract_env_variables` (as the list of matches;
the source collects them into a set and only membership is consumed). -/
def extract_env_variables (w : N8nWorkflow) : List String :=
  w.nodes.flatMap (fun n => envMatches (node_params_str n).data)

/-- `WorkflowValidator._validate_security` with the default rules
(`required_env_vars = ["NOTION_TOKEN"]`). -/
def validate_security (w : N8nWorkflow) : List ValidationResult :=
  (let hardcoded_secrets := find_hardcoded_secrets w
   if !hardcoded_secrets.isEmpty then
    [⟨false, "security",
      "Hardcoded secrets found: " ++ pyStrListRepr hardcoded_secrets⟩]
   else [⟨true, "security", "No hardcoded secrets detected"⟩]) ++
  (let env_vars_used := extract_env_variables w
   let missing_vars :=
     (["NOTION_TOKEN"].filter (fun v => !env_vars_used.contains v))
   if !missing_vars.isEmpty then
    [⟨false, "security",
      "Missing required environment variables: " ++ pyStrListRepr missing_vars⟩]
   else
    [⟨true, "security", "All required environment variables are referenced"⟩])

/-- `overall_status` of `WorkflowValidator.generate_validation_report`:
`"PASS"` iff no result failed. -/
def report_overall_status (results : List ValidationResult) : String :=
  if (results.filter (fun r => !r.passed)).length = 0 then "PASS" else "FAIL"

/-!
## Shared notions for the theorems
-/

/-- Fields of a JSON object (empty for non-objects). -/
def jFields : JValue → List (String × JValue)
  | .jobj f => f
  | _ => []

/-- The invariant every successfully constructed `N8nNode` satisfies
(established by `mkN8nNode`): validated name, `retries = 3`. -/
def validNode (nd : N8nNode) : Bool :=
  nodeNameOk nd.name && nd.retries == 3

/-- The invariant every successfully constructed `N8nWorkflow` with
constructed nodes satisfies: the stored name is a fixed point of the
constructor's normalizer, the node list is non-empty, and every node is a
constructible node value. -/
def validWorkflow (w : N8nWorkflow) : Bool :=
  (wfNormalizeName w.name == w.name) && !w.nodes.isEmpty &&
  w.nodes.all validNode

/-!
## Claim C2: the end-to-end assembly scenario

Vault templates `A` (one webhook-kind node) and `B` (one slack-kind node)
and the opportunity title `"Lead Capture"`.
-/

/-- Vault template `A`: a single node of kind `n8n-nodes-base.webhook`. -/
def jsonA : JValue :=
  .jobj [("name", .jstr "a"),
         ("nodes", .jarr [.jobj
           [("id", .jstr "a1"), ("name", .jstr "a_node"),
            ("type", .jstr "n8n-nodes-base.webhook"),
            ("position", .jarr [.jnum 0, .jnum 0]),
            ("parameters", .jobj [])]]),
         ("connections", .jobj [])]

/-- Vault template `B`: a single node of kind `n8n-nodes-base.slack`. -/
def jsonB : JValue :=
  .jobj [("name", .jstr "b"),
         ("nodes", .jarr [.jobj
           [("id", .jstr "b1"), ("name", .jstr "b_node"),
            ("type", .jstr "n8n-nodes-base.slack"),
            ("position", .jarr [.jnum 0, .jnum 0]),
            ("parameters", .jobj [])]]),
         ("connections", .jobj [])]

/-- The vault holding exactly the templates `A` and `B`. -/
def vaultAB : String → VaultFile := fun n =>
  if n = "A" then .parsed jsonA
  else if n = "B" then .parsed jsonB
  else .absent

/-- `assemble_workflows(["A", "B"], opportunity)` for the opportunity
titled `"Lead Capture"`. -/
def assembledAB : Except String N8nWorkflow :=
  assemble_workflows vaultAB ["A", "B"] "Lead Capture"

/-- The schema, business-logic and security results on a workflow, in the
order `validate_workflow` produces them. -/
def schemaLogicSecurity (w : N8nWorkflow) : List ValidationResult :=
  validate_json_schema w ++ validate_business_logic w ++ validate_security w

/-- C2, counterexample: the assembled workflow has 8 nodes, not 6 (error
shadow nodes are also synthesized for the two logging shadow nodes), and
the aggregated schema/business-logic/security report is `"FAIL"`, not
`"PASS"` (the required environment variable `NOTION_TOKEN` is never
referenced). -/
theorem C2_counterexample :
    assembledAB.map (fun w => w.nodes.length) = .ok 8 ∧
    assembledAB.map (fun w => w.nodes.length) ≠ .ok 6 ∧
    assembledAB.map (fun w => report_overall_status (schemaLogicSecurity w)) =
      .ok "FAIL" := by
  refine ⟨rfl, ?_, rfl⟩
  have h : assembledAB.map (fun w => w.nodes.length) = .ok 8 := rfl
  rw [h]
  simp

/-- C2, amended: `assemble_workflows(["A", "B"], opportunity)` for the
opportunity titled "Lead Capture" yields a workflow named
`lead_capture_automation` with 8 nodes — the 2 original nodes, 2 logging
shadow nodes, and 4 error shadow nodes (error shadows are also built for
the logging shadows) — every original node keeping `retries = 3`; the
schema and business-logic checks and the hardcoded-secret scan all pass,
but the security check's required-environment-variable rule fails
(`NOTION_TOKEN` is never referenced), so the aggregated
schema/business-logic/security report is `"FAIL"`. -/
theorem C2_amended :
    assembledAB.map (fun w => w.name) = .ok "lead_capture_automation" ∧
    assembledAB.map (fun w => w.nodes.map (fun n => n.name)) =
      .ok ["webhook_a_node", "slack_b_b_node",
           "log__webhook_a_node", "log__slack_b_b_node",
           "error__webhook_a_node", "error__slack_b_b_node",
           "error__log__webhook_a_node", "error__log__slack_b_b_node"] ∧
    assembledAB.map (fun w => w.nodes.map (fun n => n.retries)) =
      .ok [3, 3, 3, 3, 3, 3, 3, 3] ∧
    assembledAB.map (fun w =>
      (validate_json_schema w ++ validate_business_logic w).map
        (fun r => r.passed)) = .ok [true, true, true, true, true] ∧
    assembledAB.map (fun w => find_hardcoded_secrets w) = .ok [] ∧
    assembledAB.map (fun w => (validate_security w).map (fun r => r.passed)) =
      .ok [true, false] ∧
    assembledAB.map (fun w => report_overall_status (schemaLogicSecurity w)) =
      .ok "FAIL" :=
  ⟨rfl, rfl, rfl, rfl, rfl, rfl, rfl⟩

/-!
## Claims C4 and C10: the hardcoded-secret scan
-/

/-- A workflow whose single node holds an inline `api_key` literal with no
templating expression. -/
def apiKeyWF : N8nWorkflow :=
  ⟨"w", [⟨"n1", "ak_node", "t", ⟨0, 0⟩,
          [("api_key", .jstr "secret123")], none, 3, true⟩],
   [], [], none, false, []⟩

/-- A workflow whose single node holds an inline `password` literal. -/
def passwordWF : N8nWorkflow :=
  ⟨"w", [⟨"n1", "pw_node", "t", ⟨0, 0⟩,
          [("password", .jstr "hunter2")], none, 3, true⟩],
   [], [], none, false, []⟩

/-- A workflow whose single node holds a templated `password` reference. -/
def templatedWF : N8nWorkflow :=
  ⟨"w", [⟨"n1", "tpl_node", "t", ⟨0, 0⟩,
          [("password", .jstr "\x7b\x7b $env.PASS \x7d\x7d")], none, 3, true⟩],
   [], [], none, false, []⟩

/-- A workflow whose single node holds an inline `token` literal. -/
def tokenWF : N8nWorkflow :=
  ⟨"w", [⟨"n1", "tok_node", "t", ⟨0, 0⟩,
          [("token", .jstr "abc123")], none, 3, true⟩],
   [], [], none, false, []⟩

/-- C4, counterexample: the claim says an unwrapped `api_key` literal is
flagged, but the scan only looks for the substrings `password` and
`token`; the `api_key` workflow's serialized parameters contain neither a
template delimiter nor those substrings, and nothing is flagged. -/
theorem C4_counterexample :
    find_hardcoded_secrets apiKeyWF = [] ∧
    strContains (node_params_str ⟨"n1", "ak_node", "t", ⟨0, 0⟩,
      [("api_key", .jstr "secret123")], none, 3, true⟩) "\x7b\x7b" = false :=
  ⟨rfl, rfl⟩

/-- C4, amended: the security scan flags inline `password` and `token`
literals not wrapped in a templating expression — absence of the `{{`
delimiter substring in the node's serialized parameters is the
discriminator — but it does not look for `api_key`: `{"password":
"hunter2"}` is flagged, `{"password": "{{ $env.PASS }}"}` is not,
`{"token": "abc123"}` is flagged, and `{"api_key": "secret123"}` is not. -/
theorem C4_amended :
    find_hardcoded_secrets passwordWF =
      ["Potential hardcoded password in pw_node"] ∧
    find_hardcoded_secrets templatedWF = [] ∧
    find_hardcoded_secrets tokenWF = ["Potential hardcoded token in tok_node"] ∧
    find_hardcoded_secrets apiKeyWF = [] :=
  ⟨rfl, rfl, rfl, rfl⟩

/-- A node whose serialized parameters contain `password` only inside a
parameter key name. -/
def keyNameNode : N8nNode :=
  ⟨"n1", "kn_node", "t", ⟨0, 0⟩, [("user_password_hint", .jnum 1)],
   none, 3, true⟩

/-- A workflow whose single node has a literal `password` value in one
parameter and a templating expression in a different parameter. -/
def crossParamWF : N8nWorkflow :=
  ⟨"w", [⟨"n1", "cp_node", "t", ⟨0, 0⟩,
          [("password", .jstr "hunter2"),
           ("note", .jstr "\x7b\x7b $json.x \x7d\x7d")], none, 3, true⟩],
   [], [], none, false, []⟩

/-- C10: the scan decides per node on the JSON serialization of the whole
parameters mapping: any occurrence of `{{` suppresses both flags for that
node, even when the template lives in a different parameter than the
literal (`crossParamWF`); without `{{`, a `password` occurrence anywhere in
the serialization — including inside a key name (`keyNameNode`) — is
flagged. -/
theorem C10_scan_per_node :
    (∀ nd : N8nNode, strContains (node_params_str nd) "\x7b\x7b" = true →
      node_secret_flags nd = []) ∧
    (∀ nd : N8nNode, strContains (node_params_str nd) "\x7b\x7b" = false →
      strContains (node_params_str nd) "password" = true →
      ("Potential hardcoded password in " ++ nd.name) ∈ node_secret_flags nd) ∧
    (∀ nd : N8nNode, strContains (node_params_str nd) "\x7b\x7b" = false →
      strContains (node_params_str nd) "token" = true →
      ("Potential hardcoded token in " ++ nd.name) ∈ node_secret_flags nd) ∧
    node_secret_flags keyNameNode = ["Potential hardcoded password in kn_node"] ∧
    find_hardcoded_secrets crossParamWF = [] := by
  refine ⟨?_, ?_, ?_, rfl, rfl⟩
  · intro nd h
    simp [node_secret_flags, h]
  · intro nd h hp
    simp [node_secret_flags, h, hp]
  · intro nd h ht
    simp [node_secret_flags, h, ht]

/-- C10, witness for the hypotheses of the general parts: concrete nodes
exercising the suppression and the key-name match. -/
theorem C10_scan_per_node_witness :
    node_secret_flags ⟨"n1", "cp_node", "t", ⟨0, 0⟩,
      [("password", .jstr "hunter2"),
       ("note", .jstr "\x7b\x7b $json.x \x7d\x7d")], none, 3, true⟩ = [] ∧
    ("Potential hardcoded password in kn_node") ∈ node_secret_flags keyNameNode ∧
    ("Potential hardcoded token in tok_node") ∈
      node_secret_flags ⟨"n1", "tok_node", "t", ⟨0, 0⟩,
        [("token", .jstr "abc123")], none, 3, true⟩ :=
  ⟨C10_scan_per_node.1 _ rfl,
   C10_scan_per_node.2.1 keyNameNode rfl rfl,
   C10_scan_per_node.2.2.1 _ rfl rfl⟩

/-!
## Claim C3: `load_workflow_from_vault` error behavior
-/

/-- A structurally complete vault file whose only defect is a node name
violating the snake_case pattern. -/
def badNameFile : VaultFile :=
  .parsed (.jobj
    [("name", .jstr "w"),
     ("nodes", .jarr [.jobj
       [("id", .jstr "n1"), ("name", .jstr "bad name"),
        ("type", .jstr "t"),
        ("position", .jarr [.jnum 0, .jnum 0])]]),
     ("connections", .jobj [])])

/-- C3, counterexample: a raw node name failing the snake_case pattern is
not a warning-level note — it is appended to the same structural error
list, and it alone makes the load fail with a `ProcessingError` whose
message carries exactly that snake_case complaint. -/
theorem C3_counterexample :
    load_workflow_from_vault "w" badNameFile =
      .error ("Failed to load workflow 'w': Invalid workflow JSON: " ++
        "Node 0: Node name 'bad name' should use snake_case convention") :=
  rfl

/-- C3, amended: a raw node name failing the (lowercased) snake_case
pattern is recorded as a structural error and that error, together with
all other accumulated structural errors, makes the load fail with a
`ProcessingError` listing all of them; malformed JSON fails with the
distinct "Invalid JSON" `ProcessingError`, and an absent file with the
distinct "not found" `ProcessingError`. -/
theorem C3_amended :
    (∀ name msg, load_workflow_from_vault name (.malformed msg) =
      .error ("Invalid JSON in workflow '" ++ name ++ "': " ++ msg)) ∧
    (∀ name, load_workflow_from_vault name .absent =
      .error ("Workflow '" ++ name ++ "' not found in vault: automation_vault/" ++
        name ++ ".json")) ∧
    (∀ name wd errs, validate_workflow_json wd = .ok errs → errs ≠ [] →
      load_workflow_from_vault name (.parsed (.jobj wd)) =
        .error ("Failed to load workflow '" ++ name ++
          "': Invalid workflow JSON: " ++ String.intercalate "; " errs)) ∧
    (∀ f i s, dictGet f "name" = some (.jstr s) → s ≠ "" →
      snakeCaseOk (s.data.map Char.toLower) = false →
      ∃ errs, validate_node_structure (.jobj f) i = .ok errs ∧
        ("Node " ++ toString i ++ ": Node name '" ++ s ++
          "' should use snake_case convention") ∈ errs) := by
  refine ⟨fun name msg => rfl, fun name => rfl, ?_, ?_⟩
  · intro name wd errs hv hne
    cases errs with
    | nil => exact absurd rfl hne
    | cons e es => simp [load_workflow_from_vault, hv]
  · intro f i s hname hs hsnake
    have hs' : (s != "") = true := by simpa using hs
    simp only [validate_node_structure, hname, hsnake, hs', Bool.not_false,
      Bool.and_true, if_true, Bind.bind, Except.bind]
    exact ⟨_, rfl, by simp⟩

/-- C3, witness: the amended statement applied to the bad-name file's
content at concrete inputs. -/
theorem C3_amended_witness :
    load_workflow_from_vault "w" (.malformed "Expecting value: line 1 column 1") =
      .error "Invalid JSON in workflow 'w': Expecting value: line 1 column 1" ∧
    load_workflow_from_vault "w" .absent =
      .error "Workflow 'w' not found in vault: automation_vault/w.json" ∧
    ∃ errs, validate_node_structure (.jobj
        [("id", .jstr "n1"), ("name", .jstr "bad name"),
         ("type", .jstr "t"),
         ("position", .jarr [.jnum 0, .jnum 0])]) 0 = .ok errs ∧
      "Node 0: Node name 'bad name' should use snake_case convention" ∈ errs :=
  ⟨C3_amended.1 "w" "Expecting value: line 1 column 1",
   C3_amended.2.1 "w",
   C3_amended.2.2.2 _ 0 "bad name" rfl (by decide) (by decide)⟩

/-!
## Dictionary lemmas
-/

theorem dictGet_map_upd (d : List (String × JValue)) (k : String) (v : JValue)
    (h : dictContains d k = true) :
    dictGet (d.map (fun p => if p.1 == k then (k, v) else p)) k = some v := by
  induction d with
  | nil => simp [dictContains] at h
  | cons p rest ih =>
    by_cases hp : p.1 == k
    · simp [dictGet, List.find?, hp]
    · have h' : dictContains rest k = true := by
        simpa [dictContains, hp] using h
      have := ih h'
      simpa [dictGet, List.find?, hp] using this

theorem find?_upd_ne (d : List (String × JValue)) (k k' : String)
    (v : JValue) (h : k' ≠ k) :
    List.find? (fun p => p.1 == k')
        (d.map (fun p => if p.1 == k then (k, v) else p)) =
      List.find? (fun p => p.1 == k') d := by
  induction d with
  | nil => rfl
  | cons p rest ih =>
    by_cases hb : p.1 == k
    · have hbe : p.1 = k := by simpa using hb
      have h1 : ((if p.1 == k then (k, v) else p).1 == k') = false := by
        simp [hb, beq_eq_false_iff_ne]
        exact Ne.symm h
      have h2 : (p.1 == k') = false := by
        rw [hbe]
        simp [beq_eq_false_iff_ne]
        exact Ne.symm h
      simp only [List.map_cons, List.find?, h1, h2]
      exact ih
    · have h1 : ((if p.1 == k then (k, v) else p).1 == k') = (p.1 == k') := by
        simp [hb]
      have hb' : (p.1 == k) = false := by simpa using hb
      by_cases hp : p.1 == k'
      · simp only [List.map_cons, List.find?, hb', Bool.false_eq_true,
          if_false, hp]
      · simp only [List.map_cons, List.find?, h1, hp]
        exact ih

theorem dictGet_map_upd_ne (d : List (String × JValue)) (k k' : String)
    (v : JValue) (h : k' ≠ k) :
    dictGet (d.map (fun p => if p.1 == k then (k, v) else p)) k' =
      dictGet d k' := by
  unfold dictGet
  rw [find?_upd_ne d k k' v h]

theorem dictGet_append_self (d : List (String × JValue)) (k : String)
    (v : JValue) (h : dictContains d k = false) :
    dictGet (d ++ [(k, v)]) k = some v := by
  induction d with
  | nil => simp [dictGet, List.find?]
  | cons p rest ih =>
    have hp : (p.1 == k) = false := by
      by_contra hc
      simp [dictContains, Bool.eq_false_iff] at h hc
      exact h.1 hc
    have h' : dictContains rest k = false := by
      simpa [dictContains, hp] using h
    have := ih h'
    simpa [dictGet, List.find?, hp] using this

theorem dictGet_append_ne (d : List (String × JValue)) (k k' : String)
    (v : JValue) (h : k' ≠ k) :
    dictGet (d ++ [(k, v)]) k' = dictGet d k' := by
  have hkk : (k == k') = false := by
    simp [beq_eq_false_iff_ne]
    exact Ne.symm h
  induction d with
  | nil => simp [dictGet, List.find?, hkk]
  | cons p rest ih =>
    by_cases hp : p.1 == k'
    · simp [dictGet, List.find?, hp]
    · simpa [dictGet, List.find?, hp] using ih

/-- `d[k] = v` makes a later `d.get(k)` return `v`. -/
theorem dictGet_insert_self (d : List (String × JValue)) (k : String)
    (v : JValue) : dictGet (dictInsert d k v) k = some v := by
  unfold dictInsert
  by_cases h : dictContains d k
  · simpa [h] using dictGet_map_upd d k v h
  · have h' : dictContains d k = false := by simpa using h
    simpa [h'] using dictGet_append_self d k v h'

/-- `d[k] = v` does not touch other keys. -/
theorem dictGet_insert_ne (d : List (String × JValue)) (k k' : String)
    (v : JValue) (h : k' ≠ k) :
    dictGet (dictInsert d k v) k' = dictGet d k' := by
  unfold dictInsert
  by_cases hc : dictContains d k
  · simpa [hc] using dictGet_map_upd_ne d k k' v h
  · have hc' : dictContains d k = false := by simpa using hc
    simpa [hc'] using dictGet_append_ne d k k' v h

/-- Key presence is definedness of lookup. -/
theorem dictContains_eq_isSome (d : List (String × JValue)) (k : String) :
    dictContains d k = (dictGet d k).isSome := by
  induction d with
  | nil => simp [dictContains, dictGet]
  | cons p rest ih =>
    by_cases hp : p.1 == k
    · simp [dictContains, dictGet, List.find?, hp]
    · simpa [dictContains, dictGet, List.find?, hp] using ih

/-- Insertion leaves the inserted key present. -/
theorem dictContains_insert_self (d : List (String × JValue)) (k : String)
    (v : JValue) : dictContains (dictInsert d k v) k = true := by
  rw [dictContains_eq_isSome, dictGet_insert_self]
  rfl

/-- Insertion preserves the presence of every key. -/
theorem dictContains_insert_of (d : List (String × JValue)) (k k' : String)
    (v : JValue) (h : dictContains d k' = true) :
    dictContains (dictInsert d k v) k' = true := by
  by_cases hk : k' = k
  · subst hk; exact dictContains_insert_self d k' v
  · rw [dictContains_eq_isSome, dictGet_insert_ne d k k' v hk,
      ← dictContains_eq_isSome]
    exact h

/-!
## Claim C8: `inject_retry_logic`
-/

/-- A workflow with one node that is not skipped (`retry_on_fail` is
false) and whose parameters already contain `retryOnFail` but lack
`maxTries` and `waitBetweenTries`. -/
def c8WF : N8nWorkflow :=
  ⟨"w", [⟨"n1", "nd", "t", ⟨0, 0⟩, [("retryOnFail", .jbool false)],
          none, 3, false⟩], [], [], none, false, []⟩

/-- C8, counterexample: the claim says `maxTries` and `waitBetweenTries`
are added whenever those keys are not already present; on `c8WF`'s node
(not skipped, since `retry_on_fail` is false) both keys are absent, yet
after `inject_retry_logic` the parameters are unchanged — the presence of
`retryOnFail` alone suppresses all three writes. -/
theorem C8_counterexample :
    (inject_retry_logic c8WF).nodes.map (fun n => n.parameters) =
      [[("retryOnFail", .jbool false)]] ∧
    (inject_retry_logic c8WF).nodes.map
      (fun n => dictContains n.parameters "maxTries") = [false] ∧
    (inject_retry_logic c8WF).nodes.map
      (fun n => dictContains n.parameters "waitBetweenTries") = [false] ∧
    (inject_retry_logic c8WF).nodes.map (fun n => n.retry_on_fail) = [true] :=
  ⟨rfl, rfl, rfl, rfl⟩

/-- C8, amended: `inject_retry_logic` sets every node's `retries` to 3 and
`retry_on_fail` to true; a node already having `retries = 3` and
`retry_on_fail = true` is left entirely (byte-for-byte) unchanged; for any
other node, the three retry parameters are written exactly when the key
`retryOnFail` is absent from its parameters (presence of that single key
suppresses all three writes; when absent, `maxTries = 3` and
`waitBetweenTries = 200` are written even if those keys already existed
with other values), and otherwise the parameters are unchanged. -/
theorem C8_amended :
    (∀ w : N8nWorkflow,
      (inject_retry_logic w).nodes = w.nodes.map inject_retry_node) ∧
    ∀ nd : N8nNode,
      (inject_retry_node nd).retries = 3 ∧
      (inject_retry_node nd).retry_on_fail = true ∧
      (nd.retries = 3 ∧ nd.retry_on_fail = true → inject_retry_node nd = nd) ∧
      (¬(nd.retries = 3 ∧ nd.retry_on_fail = true) →
        (dictContains nd.parameters "retryOnFail" = true →
          (inject_retry_node nd).parameters = nd.parameters) ∧
        (dictContains nd.parameters "retryOnFail" = false →
          dictGet (inject_retry_node nd).parameters "retryOnFail" =
            some (.jbool true) ∧
          dictGet (inject_retry_node nd).parameters "maxTries" =
            some (.jnum 3) ∧
          dictGet (inject_retry_node nd).parameters "waitBetweenTries" =
            some (.jnum 200))) := by
  refine ⟨fun w => rfl, fun nd => ?_⟩
  by_cases hc : nd.retries = 3 ∧ nd.retry_on_fail = true
  · have hb : (nd.retries == 3 && nd.retry_on_fail) = true := by
      simp [hc.1, hc.2]
    have hnd : inject_retry_node nd = nd := by
      unfold inject_retry_node
      rw [hb]
      simp
    rw [hnd]
    exact ⟨hc.1, hc.2, fun _ => rfl, fun hn => absurd hc hn⟩
  · have hb : (nd.retries == 3 && nd.retry_on_fail) = false := by
      rcases not_and_or.mp hc with h1 | h1
      · simp [beq_eq_false_iff_ne.mpr h1]
      · have h2 : nd.retry_on_fail = false := by simpa using h1
        simp [h2]
    by_cases hr : dictContains nd.parameters "retryOnFail" = true
    · have hnd : inject_retry_node nd =
          { nd with retries := 3, retry_on_fail := true } := by
        unfold inject_retry_node
        rw [hb]
        simp only [Bool.false_eq_true, if_false]
        have : dictContains
            ({ nd with retries := 3, retry_on_fail := true } :
              N8nNode).parameters "retryOnFail" = true := hr
        rw [this]
        simp
      rw [hnd]
      refine ⟨rfl, rfl, fun hcc => absurd hcc hc, fun _ => ⟨fun _ => rfl, ?_⟩⟩
      intro hf
      rw [hr] at hf
      cases hf
    · have hr' : dictContains nd.parameters "retryOnFail" = false := by
        simpa using hr
      have hnd : inject_retry_node nd = { nd with retries := 3, retry_on_fail := true, parameters := (dictInsert (dictInsert (dictInsert nd.parameters "retryOnFail" (.jbool true)) "maxTries" (.jnum 3)) "waitBetweenTries" (.jnum 200)) } := by
        unfold inject_retry_node
        rw [hb]
        simp only [Bool.false_eq_true, if_false]
        have : dictContains
            ({ nd with retries := 3, retry_on_fail := true } :
              N8nNode).parameters "retryOnFail" = false := hr'
        rw [this]
        simp
      rw [hnd]
      refine ⟨rfl, rfl, fun hcc => absurd hcc hc, fun _ => ⟨?_, fun _ => ?_⟩⟩
      · intro ht
        rw [hr'] at ht
        cases ht
      · refine ⟨?_, ?_, ?_⟩
        · rw [dictGet_insert_ne _ _ _ _ (by decide),
            dictGet_insert_ne _ _ _ _ (by decide), dictGet_insert_self]
        · rw [dictGet_insert_ne _ _ _ _ (by decide), dictGet_insert_self]
        · rw [dictGet_insert_self]

/-- C8, witness: the amended theorem applied to the `c8WF` node (not
skipped, parameters already containing `retryOnFail`) and to a compliant
node (skipped unchanged). -/
theorem C8_amended_witness :
    (inject_retry_node ⟨"n1", "nd", "t", ⟨0, 0⟩,
      [("retryOnFail", .jbool false)], none, 3, false⟩).retries = 3 ∧
    (inject_retry_node ⟨"n1", "nd", "t", ⟨0, 0⟩,
      [("retryOnFail", .jbool false)], none, 3, false⟩).parameters =
      [("retryOnFail", .jbool false)] ∧
    inject_retry_node ⟨"n2", "ok_nd", "t", ⟨0, 0⟩,
      [("retryOnFail", .jbool true)], none, 3, true⟩ =
      ⟨"n2", "ok_nd", "t", ⟨0, 0⟩, [("retryOnFail", .jbool true)],
       none, 3, true⟩ :=
  ⟨(C8_amended.2 _).1,
   ((C8_amended.2 _).2.2.2 (by simp)).1 (by decide),
   (C8_amended.2 _).2.2.1 ⟨rfl, rfl⟩⟩

/-- `a ++ x ++ b` differs from `c` when the two sides differ at a
character position inside `a`; used for message disambiguation. -/
theorem str_append_ne (a x b c : String) (k : Nat) (ca cc : Char)
    (ha : (a.data.drop k).head? = some ca)
    (hc : (c.data.drop k).head? = some cc)
    (hne : ca ≠ cc) : a ++ x ++ b ≠ c := by
  intro h
  have h2 := congrArg (fun s => (s.data.drop k).head?) h
  simp only [String.data_append] at h2
  have hk : k ≤ a.data.length := by
    by_contra hgt
    push_neg at hgt
    have hnil : a.data.drop k = [] := List.drop_eq_nil_of_le (le_of_lt hgt)
    rw [hnil] at ha
    cases ha
  rw [List.append_assoc, List.drop_append_of_le_length hk,
    List.head?_append, ha] at h2
  rw [hc] at h2
  simp only [Option.or_some, Option.some.injEq] at h2
  exact hne (by simpa using h2)

/-!
## Claim C9: the retry-count construction invariant
-/

/-- C9: every successfully constructed `N8nNode` has `retries = 3` (the
pydantic field default is 3, and `validate_retry_count` rejects every
other value), so in a constructible workflow every node has `retries > 0`,
the retry filter keeps all nodes, and the business-logic failure
"Retry logic is missing from all nodes" can never be produced — the retry
check always yields the passing result counting all nodes. -/
theorem C9_retry_invariant :
    (∀ id name ty pos params creds r rof nd,
      mkN8nNode id name ty pos params creds r rof = .ok nd →
      nd.retries = 3 ∧ r = 3) ∧
    (∀ id name ty pos params creds r rof, r ≠ 3 →
      (mkN8nNode id name ty pos params creds r rof).isOk = false) ∧
    (∀ w : N8nWorkflow, validWorkflow w = true →
      (w.nodes.filter (fun n => n.retries > 0)).length = w.nodes.length ∧
      validate_business_logic w =
        (if (w.nodes.filter (fun n => strStarts n.name "error__")).isEmpty
         then [⟨false, "logic", "Error handling nodes are missing"⟩]
         else [⟨true, "logic", "Error handling implemented: " ++
           toString (w.nodes.filter
             (fun n => strStarts n.name "error__")).length ++ " nodes"⟩]) ++
        [⟨true, "logic", "Retry logic implemented: " ++
          toString w.nodes.length ++ " nodes"⟩] ∧
      ∀ r ∈ validate_business_logic w,
        r.message ≠ "Retry logic is missing from all nodes") := by
  refine ⟨?_, ?_, ?_⟩
  · intro id name ty pos params creds r rof nd h
    unfold mkN8nNode at h
    by_cases h1 : nodeNameOk name
    · by_cases h2 : r != 3
      · simp [h1, h2] at h
      · have hr : r = 3 := by simpa using h2
        simp [h1, h2] at h
        exact ⟨by rw [← h]; exact hr.symm ▸ rfl, hr⟩
    · simp [h1] at h
  · intro id name ty pos params creds r rof hr
    unfold mkN8nNode
    have h2 : (r != 3) = true := by simpa using hr
    by_cases h1 : nodeNameOk name <;> simp [h1, h2, Except.isOk] <;> rfl
  · intro w hw
    have hall : ∀ n ∈ w.nodes, n.retries > 0 := by
      intro n hn
      have h1 : w.nodes.all validNode = true := by
        have := hw
        unfold validWorkflow at this
        exact (Bool.and_eq_true_iff.mp this).2
      have h2 : validNode n = true := List.all_eq_true.mp h1 n hn
      have h3 : n.retries = 3 := by
        unfold validNode at h2
        simpa using (Bool.and_eq_true_iff.mp h2).2
      omega
    have hfilter : w.nodes.filter (fun n => n.retries > 0) = w.nodes := by
      apply List.filter_eq_self.mpr
      intro a ha
      simpa using hall a ha
    refine ⟨by rw [hfilter], ?_, ?_⟩
    · unfold validate_business_logic
      rw [hfilter]
      have hne : w.nodes.length ≠ 0 := by
        have h1 : w.nodes.isEmpty = false := by
          unfold validWorkflow at hw
          have := (Bool.and_eq_true_iff.mp
            (Bool.and_eq_true_iff.mp hw).1).2
          simpa using this
        simpa [List.isEmpty_iff_length_eq_zero] using h1
      simp [hne]
    · intro r hr
      unfold validate_business_logic at hr
      rw [hfilter] at hr
      have hne : ¬(w.nodes.length = 0) := by
        have h1 : w.nodes.isEmpty = false := by
          unfold validWorkflow at hw
          have := (Bool.and_eq_true_iff.mp
            (Bool.and_eq_true_iff.mp hw).1).2
          simpa using this
        simpa [List.isEmpty_iff_length_eq_zero] using h1
      rcases List.mem_append.mp hr with h | h
      · by_cases he : (w.nodes.filter
            (fun n => strStarts n.name "error__")).isEmpty <;>
          simp only [he, if_true, Bool.false_eq_true, if_false,
            List.mem_singleton] at h <;> rw [h] <;>
          first
          | decide
          | exact str_append_ne _ _ _ _ 0 'E' 'R' rfl rfl (by decide)
      · simp only [hne, if_false, List.mem_singleton] at h
        rw [h]
        exact str_append_ne _ _ _ _ 13 'm' 's' rfl rfl (by decide)

/-- C9, witness: a concrete successful construction, a concrete rejection
at `retries = 2`, and the business-logic retry result on a concrete valid
workflow. -/
theorem C9_retry_invariant_witness :
    (mkN8nNode "n1" "ok_node" "t" ⟨0, 0⟩ [] none 3 true =
      .ok ⟨"n1", "ok_node", "t", ⟨0, 0⟩, [], none, 3, true⟩ →
      (⟨"n1", "ok_node", "t", ⟨0, 0⟩, [], none, 3, true⟩ : N8nNode).retries = 3) ∧
    (mkN8nNode "n1" "ok_node" "t" ⟨0, 0⟩ [] none 2 true).isOk = false ∧
    ∀ r ∈ validate_business_logic passwordWF,
      r.message ≠ "Retry logic is missing from all nodes" :=
  ⟨fun h => (C9_retry_invariant.1 "n1" "ok_node" "t" ⟨0, 0⟩ [] none 3 true _ h).1,
   C9_retry_invariant.2.1 "n1" "ok_node" "t" ⟨0, 0⟩ [] none 2 true (by decide),
   (C9_retry_invariant.2.2 passwordWF (by decide)).2.2⟩

/-!
## Claim C7: `combine_workflows` on zero and one workflow
-/

/-- C7: combining an empty list always fails with the `ProcessingError`
"Cannot combine empty list of workflows", and combining a single
(constructible) workflow under an already-normalized combined name returns
a shallow clone of it — same nodes, connections, settings, id, active
flag and tags — renamed to the combined name. -/
theorem C7_combine_degenerate (W : N8nWorkflow) (cname : String)
    (hW : validWorkflow W = true)
    (hn : wfNormalizeName cname = cname) :
    combine_workflows [] cname =
      .error "Cannot combine empty list of workflows" ∧
    combine_workflows [W] cname = .ok { W with name := cname } := by
  refine ⟨rfl, ?_⟩
  have hne : W.nodes.isEmpty = false := by
    unfold validWorkflow at hW
    have := (Bool.and_eq_true_iff.mp (Bool.and_eq_true_iff.mp hW).1).2
    simpa using this
  show mkN8nWorkflow cname W.nodes W.connections W.settings W.id W.active
      W.tags = .ok { W with name := cname }
  unfold mkN8nWorkflow
  rw [hne]
  simp [hn]

/-- C7, witness: the theorem applied to a concrete valid workflow and the
combined name `"combo"`. -/
theorem C7_combine_degenerate_witness :
    combine_workflows [] "combo" =
      .error "Cannot combine empty list of workflows" ∧
    combine_workflows [passwordWF] "combo" =
      .ok { passwordWF with name := "combo" } :=
  C7_combine_degenerate passwordWF "combo" (by decide) (by decide)

/-!
## Claim C5: serialization round-trip
-/

theorem tags_roundtrip (tags : List String) :
    tags_from_json (tags.map JValue.jstr) = Except.ok tags := by
  induction tags with
  | nil => rfl
  | cons t rest ih => simp [tags_from_json, ih, Bind.bind, Except.bind]

/-- Round-trip of a single constructible node through
`node_to_json`/`node_from_json`, lossless on id, name, type, position and
parameters. -/
theorem node_roundtrip (nd : N8nNode) (h1 : nodeNameOk nd.name = true) :
    ∃ nd', node_from_json (node_to_json nd) = .ok nd' ∧
      nd'.id = nd.id ∧ nd'.name = nd.name ∧ nd'.type = nd.type ∧
      nd'.position = nd.position ∧ nd'.parameters = nd.parameters := by
  cases hc : nd.credentials with
  | none =>
    refine ⟨⟨nd.id, nd.name, nd.type, ⟨nd.position.x, nd.position.y⟩,
      nd.parameters, none, 3, true⟩, ?_, rfl, rfl, rfl, ?_, rfl⟩
    · simp [node_to_json, node_from_json, hc, dictGet, List.find?,
        mkN8nNode, h1, Bind.bind, Except.bind]
    · rfl
  | some c =>
    by_cases hce : c.isEmpty
    · refine ⟨⟨nd.id, nd.name, nd.type, ⟨nd.position.x, nd.position.y⟩,
        nd.parameters, none, 3, true⟩, ?_, rfl, rfl, rfl, ?_, rfl⟩
      · simp [node_to_json, node_from_json, hc, hce, dictGet, List.find?,
          mkN8nNode, h1, Bind.bind, Except.bind]
      · rfl
    · refine ⟨⟨nd.id, nd.name, nd.type, ⟨nd.position.x, nd.position.y⟩,
        nd.parameters, some c, 3, true⟩, ?_, rfl, rfl, rfl, ?_, rfl⟩
      · simp [node_to_json, node_from_json, hc, hce, dictGet, List.find?,
          mkN8nNode, h1, Bind.bind, Except.bind]
      · rfl

/-- Round-trip of a list of constructible nodes. -/
theorem nodes_roundtrip (ns : List N8nNode)
    (h : ns.all (fun n => nodeNameOk n.name) = true) :
    ∃ ns', nodes_from_json (ns.map node_to_json) = .ok ns' ∧
      ns'.map (fun n => n.id) = ns.map (fun n => n.id) ∧
      ns'.map (fun n => n.name) = ns.map (fun n => n.name) ∧
      ns'.map (fun n => n.type) = ns.map (fun n => n.type) ∧
      ns'.map (fun n => n.position) = ns.map (fun n => n.position) ∧
      ns'.map (fun n => n.parameters) = ns.map (fun n => n.parameters) ∧
      ns'.length = ns.length := by
  induction ns with
  | nil => exact ⟨[], rfl, rfl, rfl, rfl, rfl, rfl, rfl⟩
  | cons nd rest ih =>
    rw [List.all_cons, Bool.and_eq_true_iff] at h
    obtain ⟨nd', hnd', e1, e2, e3, e4, e5⟩ := node_roundtrip nd h.1
    obtain ⟨ns', hns', f1, f2, f3, f4, f5, f6⟩ := ih h.2
    refine ⟨nd' :: ns', ?_, ?_, ?_, ?_, ?_, ?_, ?_⟩ <;>
      simp [nodes_from_json, hnd', hns', Bind.bind, Except.bind,
        e1, e2, e3, e4, e5, f1, f2, f3, f4, f5, f6]

/-- C5: for every constructible workflow,
`from_n8n_json (to_n8n_json w)` succeeds and is structurally equal to `w`
on node ids, names, kinds (types), positions and parameters, the
connection map, the settings and the workflow's `active` flag and `tags`;
moreover `to_n8n_json` omits a node's `credentials` key when credentials
are absent and omits the workflow `id` key when the id is absent. -/
theorem C5_roundtrip (w : N8nWorkflow) (h : validWorkflow w = true) :
    (∃ w', from_n8n_json (to_n8n_json w) = Except.ok w' ∧
      w'.name = w.name ∧
      w'.nodes.map (fun n => n.id) = w.nodes.map (fun n => n.id) ∧
      w'.nodes.map (fun n => n.name) = w.nodes.map (fun n => n.name) ∧
      w'.nodes.map (fun n => n.type) = w.nodes.map (fun n => n.type) ∧
      w'.nodes.map (fun n => n.position) =
        w.nodes.map (fun n => n.position) ∧
      w'.nodes.map (fun n => n.parameters) =
        w.nodes.map (fun n => n.parameters) ∧
      w'.connections = w.connections ∧
      w'.settings = w.settings ∧
      w'.active = w.active ∧
      w'.tags = w.tags) ∧
    (∀ nd : N8nNode, nd.credentials = none →
      dictContains (jFields (node_to_json nd)) "credentials" = false) ∧
    (w.id = none → dictContains (jFields (to_n8n_json w)) "id" = false) := by
  have hname : wfNormalizeName w.name = w.name := by
    unfold validWorkflow at h
    have := (Bool.and_eq_true_iff.mp (Bool.and_eq_true_iff.mp h).1).1
    simpa using this
  have hnodes : ¬w.nodes.isEmpty := by
    unfold validWorkflow at h
    have := (Bool.and_eq_true_iff.mp (Bool.and_eq_true_iff.mp h).1).2
    simpa using this
  have hvn : w.nodes.all (fun n => nodeNameOk n.name) = true := by
    unfold validWorkflow at h
    have := (Bool.and_eq_true_iff.mp h).2
    rw [List.all_eq_true] at this ⊢
    intro n hn
    have := this n hn
    unfold validNode at this
    exact (Bool.and_eq_true_iff.mp this).1
  refine ⟨?_, ?_, ?_⟩
  · obtain ⟨ns', hns', f1, f2, f3, f4, f5, f6⟩ := nodes_roundtrip w.nodes hvn
    have hlen : ¬ns'.isEmpty := by
      rw [List.isEmpty_iff_length_eq_zero, f6]
      rw [List.isEmpty_iff_length_eq_zero] at hnodes
      exact hnodes
    cases hid : w.id with
    | none =>
      refine ⟨⟨wfNormalizeName w.name, ns', w.connections, w.settings,
        none, w.active, w.tags⟩, ?_,
        by rw [hname], f1, f2, f3, f4, f5, rfl, rfl, rfl, rfl⟩
      simp [to_n8n_json, from_n8n_json, hid, dictGet, List.find?,
        hns', tags_roundtrip, mkN8nWorkflow, hlen, Bind.bind, Except.bind]
    | some i =>
      by_cases hie : i = ""
      · refine ⟨⟨wfNormalizeName w.name, ns', w.connections, w.settings,
          none, w.active, w.tags⟩, ?_,
          by rw [hname], f1, f2, f3, f4, f5, rfl, rfl, rfl, rfl⟩
        simp [to_n8n_json, from_n8n_json, hid, hie, dictGet, List.find?,
          hns', tags_roundtrip, mkN8nWorkflow, hlen, Bind.bind, Except.bind]
      · refine ⟨⟨wfNormalizeName w.name, ns', w.connections, w.settings,
          some i, w.active, w.tags⟩, ?_,
          by rw [hname], f1, f2, f3, f4, f5, rfl, rfl, rfl, rfl⟩
        simp [to_n8n_json, from_n8n_json, hid, hie, dictGet, List.find?,
          hns', tags_roundtrip, mkN8nWorkflow, hlen, Bind.bind, Except.bind]
  · intro nd hnd
    simp [node_to_json, jFields, hnd, dictContains]
  · intro hid
    simp [to_n8n_json, jFields, hid, dictContains]

/-- C5, witness: the round-trip theorem applied to a concrete valid
workflow (no credentials, no id). -/
theorem C5_roundtrip_witness :
    ∃ w', from_n8n_json (to_n8n_json passwordWF) = Except.ok w' ∧
      w'.name = passwordWF.name ∧
      w'.nodes.map (fun n => n.id) =
        passwordWF.nodes.map (fun n => n.id) ∧
      w'.nodes.map (fun n => n.name) =
        passwordWF.nodes.map (fun n => n.name) ∧
      w'.nodes.map (fun n => n.type) =
        passwordWF.nodes.map (fun n => n.type) ∧
      w'.nodes.map (fun n => n.position) =
        passwordWF.nodes.map (fun n => n.position) ∧
      w'.nodes.map (fun n => n.parameters) =
        passwordWF.nodes.map (fun n => n.parameters) ∧
      w'.connections = passwordWF.connections ∧
      w'.settings = passwordWF.settings ∧
      w'.active = passwordWF.active ∧
      w'.tags = passwordWF.tags :=
  (C5_roundtrip passwordWF (by decide)).1

/-!
## Canonical snake_case names

Theory of the two normalizers: their outputs are *canonical* (characters
in `[a-z0-9_]`, no doubled underscore, no underscore at either end), and
both normalizers fix canonical strings, giving idempotence.
-/

/-- No two consecutive underscores. -/
def noDoubleU : List Char → Bool
  | [] => true
  | [_] => true
  | a :: b :: rest => !(a == '_' && b == '_') && noDoubleU (b :: rest)

theorem noDoubleU_iff_chain (l : List Char) :
    noDoubleU l = true ↔
      List.Chain' (fun a b => ¬(a = '_' ∧ b = '_')) l := by
  induction l with
  | nil => simp [noDoubleU]
  | cons a rest ih =>
    cases rest with
    | nil => simp [noDoubleU]
    | cons b rest2 =>
      rw [noDoubleU, List.chain'_cons, Bool.and_eq_true_iff, ih]
      simp only [Bool.not_eq_true', Bool.and_eq_false_iff, beq_eq_false_iff_ne,
        ne_eq, not_and]
      tauto

theorem noDoubleU_reverse_of {l : List Char} (h : noDoubleU l = true) :
    noDoubleU l.reverse = true := by
  rw [noDoubleU_iff_chain] at h ⊢
  rw [List.chain'_reverse]
  exact h.imp (fun a b hab => by
    intro hc
    exact hab ⟨hc.2, hc.1⟩)

theorem noDoubleU_suffix {l₁ l₂ : List Char} (h : l₁ <:+ l₂)
    (hn : noDoubleU l₂ = true) : noDoubleU l₁ = true := by
  obtain ⟨t, rfl⟩ := h
  rw [noDoubleU_iff_chain] at hn ⊢
  exact (List.chain'_append.mp hn).2.1

theorem noDoubleU_cons (a : Char) (l : List Char) :
    noDoubleU (a :: l) = true ↔
      ¬(a = '_' ∧ l.head? = some '_') ∧ noDoubleU l = true := by
  cases l with
  | nil => simp [noDoubleU]
  | cons b rest =>
    rw [noDoubleU, Bool.and_eq_true_iff]
    simp only [Bool.not_eq_true', Bool.and_eq_false_iff, beq_eq_false_iff_ne,
      ne_eq, List.head?_cons, Option.some.injEq, not_and]
    tauto

theorem collapse_head_true (l : List Char) :
    (collapseUnders true l).head? ≠ some '_' := by
  induction l with
  | nil => simp [collapseUnders]
  | cons c rest ih =>
    by_cases hc : c = '_'
    · simpa [collapseUnders, hc] using ih
    · simp [collapseUnders, hc]

theorem collapse_fix (l : List Char) (h : noDoubleU l = true) :
    collapseUnders false l = l ∧
      (l.head? ≠ some '_' → collapseUnders true l = l) := by
  induction l with
  | nil => exact ⟨rfl, fun _ => rfl⟩
  | cons c rest ih =>
    rw [noDoubleU_cons] at h
    obtain ⟨hcons, hrest⟩ := h
    have ihr := ih hrest
    by_cases hc : c = '_'
    · subst hc
      have hhead : rest.head? ≠ some '_' := fun hh => hcons ⟨rfl, hh⟩
      constructor
      · simp [collapseUnders, ihr.2 hhead]
      · intro habs
        exact absurd rfl habs
    · constructor
      · simp [collapseUnders, hc, ihr.1]
      · intro _
        simp [collapseUnders, hc, ihr.1]

theorem collapse_noDouble (l : List Char) :
    ∀ b, noDoubleU (collapseUnders b l) = true := by
  induction l with
  | nil => intro b; rfl
  | cons c rest ih =>
    intro b
    by_cases hc : c = '_'
    · cases b with
      | true => simpa [collapseUnders, hc] using ih true
      | false =>
        have hcoll : collapseUnders false (c :: rest) =
            '_' :: collapseUnders true rest := by
          simp [collapseUnders, hc]
        rw [hcoll, noDoubleU_cons]
        exact ⟨fun hh => collapse_head_true rest hh.2, ih true⟩
    · have hcoll : ∀ b', collapseUnders b' (c :: rest) =
          c :: collapseUnders false rest := by
        intro b'
        simp [collapseUnders, hc]
      rw [hcoll b, noDoubleU_cons]
      exact ⟨fun hh => hc hh.1, ih false⟩

theorem collapse_mem {c : Char} {l : List Char} :
    ∀ {b}, c ∈ collapseUnders b l → c ∈ l ∨ c = '_' := by
  induction l with
  | nil => intro b h; simp [collapseUnders] at h
  | cons a rest ih =>
    intro b h
    by_cases ha : a = '_'
    · subst ha
      cases b with
      | true =>
        rw [show collapseUnders true ('_' :: rest) = collapseUnders true rest
          from by simp [collapseUnders]] at h
        rcases ih h with h2 | h2
        · exact Or.inl (List.mem_cons_of_mem _ h2)
        · exact Or.inr h2
      | false =>
        rw [show collapseUnders false ('_' :: rest) =
            '_' :: collapseUnders true rest from by simp [collapseUnders],
          List.mem_cons] at h
        rcases h with h2 | h2
        · exact Or.inr h2
        · rcases ih h2 with h3 | h3
          · exact Or.inl (List.mem_cons_of_mem _ h3)
          · exact Or.inr h3
    · rw [show collapseUnders b (a :: rest) = a :: collapseUnders false rest
        from by simp [collapseUnders, ha], List.mem_cons] at h
      rcases h with h2 | h2
      · exact Or.inl (by simp [h2])
      · rcases ih h2 with h3 | h3
        · exact Or.inl (List.mem_cons_of_mem _ h3)
        · exact Or.inr h3

theorem dropWhile_isU_head (l : List Char) :
    (l.dropWhile isU).head? ≠ some '_' := by
  induction l with
  | nil => simp [List.dropWhile]
  | cons c rest ih =>
    by_cases hc : isU c
    · simpa [List.dropWhile, hc] using ih
    · have hne : c ≠ '_' := by simpa [isU] using hc
      simp [List.dropWhile, hc, hne]

theorem dropWhile_isU_self (l : List Char) (h : l.head? ≠ some '_') :
    l.dropWhile isU = l := by
  cases l with
  | nil => rfl
  | cons c rest =>
    have hc : isU c = false := by
      simp only [List.head?_cons, ne_eq, Option.some.injEq] at h
      simpa [isU] using h
    simp [List.dropWhile, hc]

theorem isPrefix_head?_eq {l₁ l₂ : List Char} (h : l₁ <+: l₂)
    (hne : l₁ ≠ []) : l₁.head? = l₂.head? := by
  obtain ⟨t, rfl⟩ := h
  cases l₁ with
  | nil => exact absurd rfl hne
  | cons a r => rfl

theorem strip_head (l : List Char) : (stripUnders l).head? ≠ some '_' := by
  unfold stripUnders
  set D := l.dropWhile isU with hD
  set X := D.reverse.dropWhile isU with hX
  have hsuf : X <:+ D.reverse := List.dropWhile_suffix isU
  have hpre : X.reverse <+: D := by
    have := List.reverse_prefix.mpr hsuf
    simpa using this
  by_cases hne : X.reverse = []
  · rw [hne]
    simp
  · rw [isPrefix_head?_eq hpre hne]
    exact dropWhile_isU_head l

theorem strip_last (l : List Char) :
    (stripUnders l).getLast? ≠ some '_' := by
  unfold stripUnders
  rw [List.getLast?_reverse]
  exact dropWhile_isU_head _

theorem strip_noDouble {l : List Char} (h : noDoubleU l = true) :
    noDoubleU (stripUnders l) = true := by
  unfold stripUnders
  exact noDoubleU_reverse_of (noDoubleU_suffix (List.dropWhile_suffix isU)
    (noDoubleU_reverse_of (noDoubleU_suffix (List.dropWhile_suffix isU) h)))

theorem strip_mem {c : Char} {l : List Char} (h : c ∈ stripUnders l) :
    c ∈ l := by
  unfold stripUnders at h
  rw [List.mem_reverse] at h
  have h2 := (List.dropWhile_suffix isU).sublist.mem h
  rw [List.mem_reverse] at h2
  exact (List.dropWhile_suffix isU).sublist.mem h2

theorem strip_fix (l : List Char) (h1 : l.head? ≠ some '_')
    (h2 : l.getLast? ≠ some '_') : stripUnders l = l := by
  unfold stripUnders
  rw [dropWhile_isU_self l h1]
  rw [dropWhile_isU_self l.reverse (by rwa [List.head?_reverse])]
  exact List.reverse_reverse l

/-- Map with a pointwise-identity function is the identity. -/
theorem map_eq_self_of {α : Type} (f : α → α) (l : List α)
    (h : ∀ a ∈ l, f a = a) : l.map f = l := by
  induction l with
  | nil => rfl
  | cons a rest ih =>
    rw [List.map_cons, h a (List.mem_cons_self a rest),
      ih (fun b hb => h b (List.mem_cons_of_mem a hb))]

/-- A canonical snake_case name: non-empty, characters in `[a-z0-9_]`, no
doubled underscore, no underscore at either end. -/
def isCanon (l : List Char) : Bool :=
  !l.isEmpty && l.all (fun c => wfValidChars.contains c) && noDoubleU l &&
  !(l.head? == some '_') && !(l.getLast? == some '_')

theorem isCanon_iff (l : List Char) : isCanon l = true ↔
    l ≠ [] ∧ (∀ c ∈ l, wfValidChars.contains c = true) ∧
    noDoubleU l = true ∧ l.head? ≠ some '_' ∧ l.getLast? ≠ some '_' := by
  unfold isCanon
  simp [List.all_eq_true, List.isEmpty_iff, and_assoc]

/-- The chain of list transformations inside `normalize_name`. -/
def normSteps (s : String) : List Char :=
  stripUnders (collapseUnders false
    (((s.data.map Char.toLower).map
      (fun c => if pyIsSpace c ∨ c = '-' then '_' else c)).filter
      (fun c => wfValidChars.contains c)))

theorem normalize_name_eq (s : String) :
    normalize_name s =
      if (normSteps s).isEmpty then "unnamed" else ⟨normSteps s⟩ := rfl

/-- The chain of list transformations inside `wfNormalizeName`. -/
def wfSteps (s : String) : List Char :=
  stripUnders (collapseUnders false
    (((s.data.map Char.toLower).map
      (fun c => if c = ' ' ∨ c = '-' then '_' else c)).map
      (fun c => if wfValidChars.contains c then c else '_')))

theorem wfNormalizeName_eq (s : String) :
    wfNormalizeName s = ⟨wfSteps s⟩ := rfl

theorem normSteps_chars (s : String) :
    ∀ c ∈ normSteps s, wfValidChars.contains c = true := by
  intro c hc
  have h1 := strip_mem hc
  rcases collapse_mem h1 with h2 | h2
  · exact List.of_mem_filter h2
  · rw [h2]
    decide

theorem wfSteps_chars (s : String) :
    ∀ c ∈ wfSteps s, wfValidChars.contains c = true := by
  intro c hc
  have h1 := strip_mem hc
  rcases collapse_mem h1 with h2 | h2
  · rw [List.mem_map] at h2
    obtain ⟨a, _, ha⟩ := h2
    by_cases hb : wfValidChars.contains a
    · rw [← ha]
      simp only [hb, if_true]
    · have hb' : wfValidChars.contains a = false := by simpa using hb
      rw [← ha]
      simp only [hb', Bool.false_eq_true, if_false]
      decide
  · rw [h2]
    decide

theorem normSteps_canon (s : String) :
    normSteps s = [] ∨ isCanon (normSteps s) = true := by
  by_cases h : normSteps s = []
  · exact Or.inl h
  · refine Or.inr ((isCanon_iff _).mpr
      ⟨h, normSteps_chars s, ?_, ?_, ?_⟩)
    · exact strip_noDouble (collapse_noDouble _ false)
    · exact strip_head _
    · exact strip_last _

theorem wfSteps_canon (s : String) :
    wfSteps s = [] ∨ isCanon (wfSteps s) = true := by
  by_cases h : wfSteps s = []
  · exact Or.inl h
  · refine Or.inr ((isCanon_iff _).mpr
      ⟨h, wfSteps_chars s, ?_, ?_, ?_⟩)
    · exact strip_noDouble (collapse_noDouble _ false)
    · exact strip_head _
    · exact strip_last _

theorem normalize_canon (s : String) :
    isCanon (normalize_name s).data = true := by
  rw [normalize_name_eq]
  rcases normSteps_canon s with h | h
  · simp [h]
    decide
  · have hne : (normSteps s).isEmpty = false := by
      rcases (isCanon_iff _).mp h with ⟨hne, _⟩
      simpa [List.isEmpty_iff] using hne
    simpa [hne] using h

/-- Both normalizers fix a canonical string. -/
theorem canon_fix_core (l : List Char)
    (hchars : ∀ c ∈ l, wfValidChars.contains c = true)
    (hnd : noDoubleU l = true) (hh : l.head? ≠ some '_')
    (hl : l.getLast? ≠ some '_') :
    normSteps ⟨l⟩ = l ∧ wfSteps ⟨l⟩ = l := by
  have hmem : ∀ c ∈ l, c ∈ wfValidChars := by
    intro c hc
    exact List.elem_iff.mp (hchars c hc)
  have hlower : l.map Char.toLower = l := by
    refine map_eq_self_of _ _ (fun a ha => ?_)
    have hfact : wfValidChars.all (fun c => c.toLower == c) = true := by decide
    have := List.all_eq_true.mp hfact a (hmem a ha)
    simpa using this
  have hsep1 : l.map (fun c => if pyIsSpace c ∨ c = '-' then '_' else c) = l := by
    refine map_eq_self_of _ _ (fun a ha => ?_)
    have hfact : wfValidChars.all
        (fun c => !(pyIsSpace c || c == '-')) = true := by decide
    have h2 := List.all_eq_true.mp hfact a (hmem a ha)
    have h3 : ¬(pyIsSpace a ∨ a = '-') := by
      simp only [Bool.not_eq_true', Bool.or_eq_false_iff,
        beq_eq_false_iff_ne] at h2
      rintro (hx | hx)
      · rw [h2.1] at hx; cases hx
      · exact h2.2 hx
    simp [h3]
  have hsep2 : l.map (fun c => if c = ' ' ∨ c = '-' then '_' else c) = l := by
    refine map_eq_self_of _ _ (fun a ha => ?_)
    have hfact : wfValidChars.all
        (fun c => !(c == ' ' || c == '-')) = true := by decide
    have h2 := List.all_eq_true.mp hfact a (hmem a ha)
    have h3 : ¬(a = ' ' ∨ a = '-') := by
      simp only [Bool.not_eq_true', Bool.or_eq_false_iff,
        beq_eq_false_iff_ne] at h2
      rintro (hx | hx)
      · exact h2.1 hx
      · exact h2.2 hx
    simp [h3]
  have hfilter : l.filter (fun c => wfValidChars.contains c) = l :=
    List.filter_eq_self.mpr hchars
  have hkeep : l.map (fun c => if wfValidChars.contains c then c else '_') = l := by
    refine map_eq_self_of _ _ (fun a ha => ?_)
    simp only [hchars a ha, if_true]
  have hcollapse := (collapse_fix l hnd).1
  have hstrip := strip_fix l hh hl
  constructor
  · show stripUnders (collapseUnders false
      ((((⟨l⟩ : String).data.map Char.toLower).map
        (fun c => if pyIsSpace c ∨ c = '-' then '_' else c)).filter
        (fun c => wfValidChars.contains c))) = l
    rw [show (⟨l⟩ : String).data = l from rfl, hlower, hsep1, hfilter,
      hcollapse, hstrip]
  · show stripUnders (collapseUnders false
      ((((⟨l⟩ : String).data.map Char.toLower).map
        (fun c => if c = ' ' ∨ c = '-' then '_' else c)).map
        (fun c => if wfValidChars.contains c then c else '_'))) = l
    rw [show (⟨l⟩ : String).data = l from rfl, hlower, hsep2, hkeep,
      hcollapse, hstrip]

theorem canon_fix_normalize {l : List Char} (h : isCanon l = true) :
    normalize_name ⟨l⟩ = ⟨l⟩ := by
  obtain ⟨hne, hchars, hnd, hh, hl⟩ := (isCanon_iff l).mp h
  have hfix := (canon_fix_core l hchars hnd hh hl).1
  rw [normalize_name_eq, hfix]
  simp [List.isEmpty_iff, hne]

theorem canon_fix_wf {l : List Char} (h : isCanon l = true) :
    wfNormalizeName ⟨l⟩ = ⟨l⟩ := by
  obtain ⟨hne, hchars, hnd, hh, hl⟩ := (isCanon_iff l).mp h
  have hfix := (canon_fix_core l hchars hnd hh hl).2
  rw [wfNormalizeName_eq, hfix]

/-- `_normalize_name` is idempotent. -/
theorem normalize_name_idem (s : String) :
    normalize_name (normalize_name s) = normalize_name s := by
  have h := canon_fix_normalize (normalize_canon s)
  exact h

/-- `validate_workflow_naming` is idempotent: every constructed workflow
name is a fixed point of the normalizer. -/
theorem wfNormalizeName_idem (s : String) :
    wfNormalizeName (wfNormalizeName s) = wfNormalizeName s := by
  rcases wfSteps_canon s with h | h
  · have h0 : wfNormalizeName s = ⟨[]⟩ := by rw [wfNormalizeName_eq, h]
    rw [h0]
    rfl
  · have := canon_fix_wf h
    rw [wfNormalizeName_eq]
    exact this

/-- Characters of a constructed workflow name are in `[a-z0-9_]`. -/
theorem wfNormalizeName_chars (s : String) :
    ∀ c ∈ (wfNormalizeName s).data, wfValidChars.contains c = true := by
  rw [wfNormalizeName_eq]
  exact wfSteps_chars s

/-!
## Claim C1: idempotence of `enforce_naming_conventions`
-/

/-- A workflow with one webhook-kind node. -/
def webhookWF : N8nWorkflow :=
  ⟨"wf", [⟨"n1", "handler", "n8n-nodes-base.webhook", ⟨0, 0⟩, [],
          none, 3, true⟩], [], [], none, false, []⟩

/-- C1, counterexample: on a webhook-kind node the skip list (slack,
hubspot, salesforce, gmail, notion — without webhook) never fires, so
every application of `enforce_naming_conventions` prepends another
`webhook_` tag: the claim's idempotence fails for the webhook mapping. -/
theorem C1_counterexample :
    (enforce_naming_conventions webhookWF).nodes.map (fun n => n.name) =
      ["webhook_handler"] ∧
    (enforce_naming_conventions
        (enforce_naming_conventions webhookWF)).nodes.map (fun n => n.name) =
      ["webhook_webhook_handler"] ∧
    enforce_naming_conventions (enforce_naming_conventions webhookWF) ≠
      enforce_naming_conventions webhookWF := by
  refine ⟨rfl, rfl, fun hcontra => ?_⟩
  have h1 := congrArg (fun w => w.nodes.map (fun n => n.name)) hcontra
  simp only at h1
  rw [show (enforce_naming_conventions
      (enforce_naming_conventions webhookWF)).nodes.map (fun n => n.name) =
      ["webhook_webhook_handler"] from rfl,
    show (enforce_naming_conventions webhookWF).nodes.map
      (fun n => n.name) = ["webhook_handler"] from rfl] at h1
  exact absurd h1 (by decide)

/-- Componentwise equality of workflows. -/
theorem workflow_ext {a b : N8nWorkflow} (h1 : a.name = b.name)
    (h2 : a.nodes = b.nodes) (h3 : a.connections = b.connections)
    (h4 : a.settings = b.settings) (h5 : a.id = b.id)
    (h6 : a.active = b.active) (h7 : a.tags = b.tags) : a = b := by
  cases a
  cases b
  simp only at h1 h2 h3 h4 h5 h6 h7
  subst h1 h2 h3 h4 h5 h6 h7
  rfl

theorem strStarts_concat (stem tg m : String) (h : stem.data <+: tg.data) :
    strStarts (tg ++ m) stem = true := by
  unfold strStarts
  rw [String.data_append]
  exact List.isPrefixOf_iff_prefix.mpr (h.trans (List.prefix_append _ _))

theorem isCanon_append_tag (tg m : List Char)
    (h1 : tg ≠ []) (h2 : ∀ c ∈ tg, wfValidChars.contains c = true)
    (h3 : noDoubleU tg = true) (h4 : tg.head? ≠ some '_')
    (h5 : tg.getLast? = some '_') (hm : isCanon m = true) :
    isCanon (tg ++ m) = true := by
  obtain ⟨hm1, hm2, hm3, hm4, hm5⟩ := (isCanon_iff m).mp hm
  refine (isCanon_iff _).mpr ⟨?_, ?_, ?_, ?_, ?_⟩
  · simp [h1]
  · intro c hc
    rcases List.mem_append.mp hc with h | h
    · exact h2 c h
    · exact hm2 c h
  · rw [noDoubleU_iff_chain]
    rw [List.chain'_append]
    refine ⟨(noDoubleU_iff_chain tg).mp h3, (noDoubleU_iff_chain m).mp hm3, ?_⟩
    intro x hx y hy
    rintro ⟨-, hy'⟩
    apply hm4
    rw [hy']  at hy
    exact hy
  · rw [List.head?_append]
    cases tg with
    | nil => exact absurd rfl h1
    | cons a r =>
      simpa using h4
  · rw [List.getLast?_append_of_ne_nil _ hm1]
    exact hm5

/-- After the skip check fails and a tag from `typeTagMap` is prepended,
the next run's skip check fires (each non-webhook tag starts with a stem
in `integrationStems`), so the name is left alone. -/
theorem enforce_node_idem (nd : N8nNode)
    (ht : nd.type ≠ "n8n-nodes-base.webhook") :
    enforce_node_naming (enforce_node_naming nd) = enforce_node_naming nd := by
  by_cases hskip : integrationStems.any
      (fun stem => strStarts (normalize_name nd.name) stem)
  · have h1 : enforce_node_naming nd =
        { nd with name := normalize_name nd.name } := by
      unfold enforce_node_naming add_integration_tag
      simp [hskip]
    rw [h1]
    unfold enforce_node_naming add_integration_tag
    simp [normalize_name_idem, hskip]
  · have hskip' : integrationStems.any
        (fun stem => strStarts (normalize_name nd.name) stem) = false := by
      simpa using hskip
    cases hfind : typeTagMap.find? (fun kv => kv.1 == nd.type) with
    | none =>
      have h1 : enforce_node_naming nd =
          { nd with name := normalize_name nd.name } := by
        unfold enforce_node_naming add_integration_tag
        simp [hskip', hfind]
      rw [h1]
      unfold enforce_node_naming add_integration_tag
      simp [normalize_name_idem, hskip', hfind]
    | some kv =>
      have hkv := List.mem_of_find?_eq_some hfind
      have hkey : kv.1 = nd.type := by
        have := List.find?_some hfind
        simpa using this
      have h1 : enforce_node_naming nd =
          { nd with name := kv.2 ++ normalize_name nd.name } := by
        unfold enforce_node_naming add_integration_tag
        simp [hskip', hfind]
      -- identify the tag; webhook is excluded by hypothesis
      have htag : (kv.2 = "slack_" ∨ kv.2 = "hubspot_" ∨
          kv.2 = "salesforce_" ∨ kv.2 = "gmail_" ∨ kv.2 = "notion_") := by
        unfold typeTagMap at hkv
        simp only [List.mem_cons, List.not_mem_nil, or_false] at hkv
        rcases hkv with h | h | h | h | h | h
        · exact Or.inl (by rw [h])
        · exact Or.inr (Or.inl (by rw [h]))
        · exact Or.inr (Or.inr (Or.inl (by rw [h])))
        · exact Or.inr (Or.inr (Or.inr (Or.inl (by rw [h]))))
        · exact Or.inr (Or.inr (Or.inr (Or.inr (by rw [h]))))
        · exact absurd (by rw [← hkey, h] : nd.type = "n8n-nodes-base.webhook") ht
      have hcanon : isCanon (kv.2 ++ normalize_name nd.name).data = true := by
        rw [String.data_append]
        have hm := normalize_canon nd.name
        rcases htag with h | h | h | h | h <;> rw [h] <;>
          exact isCanon_append_tag _ _ (by decide) (by decide) (by decide)
            (by decide) (by decide) hm
      have hnorm : normalize_name (kv.2 ++ normalize_name nd.name) =
          kv.2 ++ normalize_name nd.name := canon_fix_normalize hcanon
      have hstem : integrationStems.any (fun stem =>
          strStarts (kv.2 ++ normalize_name nd.name) stem) = true := by
        rw [List.any_eq_true]
        rcases htag with h | h | h | h | h <;> rw [h]
        · exact ⟨"slack", by decide, strStarts_concat _ _ _ (by decide)⟩
        · exact ⟨"hubspot", by decide, strStarts_concat _ _ _ (by decide)⟩
        · exact ⟨"salesforce", by decide, strStarts_concat _ _ _ (by decide)⟩
        · exact ⟨"gmail", by decide, strStarts_concat _ _ _ (by decide)⟩
        · exact ⟨"notion", by decide, strStarts_concat _ _ _ (by decide)⟩
      rw [h1]
      unfold enforce_node_naming add_integration_tag
      simp [hnorm, hstem]

set_option maxHeartbeats 1000000 in
/-- C1, amended: `enforce_naming_conventions` is idempotent on every
workflow none of whose nodes is of the webhook kind
(`n8n-nodes-base.webhook`) — the webhook tag is in the type-to-tag map but
its stem is missing from the skip list, so webhook-kind nodes gain one
more `webhook_` tag per application, while for every other node kind (and
for the workflow name) a second application changes nothing. -/
theorem C1_enforce_naming_idem (w : N8nWorkflow)
    (h : ∀ nd ∈ w.nodes, nd.type ≠ "n8n-nodes-base.webhook") :
    enforce_naming_conventions (enforce_naming_conventions w) =
      enforce_naming_conventions w := by
  have hnodes : (w.nodes.map enforce_node_naming).map enforce_node_naming =
      w.nodes.map enforce_node_naming := by
    rw [List.map_map]
    exact List.map_congr_left (fun nd hnd => enforce_node_idem nd (h nd hnd))
  show ({ name := normalize_name (normalize_name w.name),
          nodes := (w.nodes.map enforce_node_naming).map enforce_node_naming,
          connections := w.connections, settings := w.settings, id := w.id,
          active := w.active, tags := w.tags } : N8nWorkflow) =
       { name := normalize_name w.name,
          nodes := w.nodes.map enforce_node_naming,
          connections := w.connections, settings := w.settings, id := w.id,
          active := w.active, tags := w.tags }
  rw [normalize_name_idem, hnodes]

/-- C1, witness: the amended theorem applied to a two-node workflow with a
slack-kind and a set-kind node. -/
theorem C1_enforce_naming_idem_witness :
    enforce_naming_conventions (enforce_naming_conventions
      ⟨"My Flow", [⟨"n1", "post_message", "n8n-nodes-base.slack", ⟨0, 0⟩,
        [], none, 3, true⟩,
        ⟨"n2", "transform", "n8n-nodes-base.set", ⟨0, 0⟩, [], none, 3,
         true⟩], [], [], none, false, []⟩) =
      enforce_naming_conventions
        ⟨"My Flow", [⟨"n1", "post_message", "n8n-nodes-base.slack", ⟨0, 0⟩,
          [], none, 3, true⟩,
          ⟨"n2", "transform", "n8n-nodes-base.set", ⟨0, 0⟩, [], none, 3,
           true⟩], [], [], none, false, []⟩ :=
  C1_enforce_naming_idem _ (by
    intro nd hnd
    simp only [List.mem_cons, List.not_mem_nil, or_false] at hnd
    rcases hnd with h | h
    · rw [h]; decide
    · rw [h]; decide)

/-!
## Claim C6: `combine_workflows` on two workflows
-/

/-- `validate_naming_convention` accepts exactly the strings over
`[a-z0-9_]`: the two checks combined reject uppercase, space and every
special character, and the first check restricts to the alphanumeric and
underscore set. -/
theorem nodeNameOk_iff (s : String) :
    nodeNameOk s = true ↔ ∀ c ∈ s.data, wfValidChars.contains c = true := by
  have d1 : wfValidChars.all (fun c => nodeValidChars.contains c &&
      !(c == ' ') && !c.isUpper && !nodeSpecialChars.contains c) = true := by
    decide
  have d2 : nodeValidChars.all
      (fun c => c.isUpper || wfValidChars.contains c) = true := by decide
  constructor
  · intro h c hc
    unfold nodeNameOk at h
    rw [Bool.and_eq_true_iff] at h
    have hvc := List.all_eq_true.mp h.1 c hc
    have hrest := h.2
    simp only [Bool.not_eq_true', Bool.or_eq_false_iff] at hrest
    have hup : c.isUpper = false := by
      rcases List.any_eq_false.mp hrest.1.2 c hc with h3
      simpa using h3
    have := List.all_eq_true.mp d2 c (List.elem_iff.mp hvc)
    rcases Bool.or_eq_true_iff.mp this with h4 | h4
    · rw [hup] at h4; cases h4
    · exact h4
  · intro h
    unfold nodeNameOk
    rw [Bool.and_eq_true_iff]
    constructor
    · rw [List.all_eq_true]
      intro c hc
      have := List.all_eq_true.mp d1 c (List.elem_iff.mp (h c hc))
      exact (Bool.and_eq_true_iff.mp
        ((Bool.and_eq_true_iff.mp
          ((Bool.and_eq_true_iff.mp this).1)).1)).1
    · simp only [Bool.not_eq_true', Bool.or_eq_false_iff]
      refine ⟨⟨?_, ?_⟩, ?_⟩
      · rw [Bool.eq_false_iff]
        intro hc
        have h2 := h ' ' (List.elem_iff.mp hc)
        exact absurd h2 (by decide)
      · rw [List.any_eq_false]
        intro c hc
        have := List.all_eq_true.mp d1 c (List.elem_iff.mp (h c hc))
        have h2 := (Bool.and_eq_true_iff.mp this).1
        have h3 := (Bool.and_eq_true_iff.mp h2).2
        simpa using h3
      · rw [List.any_eq_false]
        intro c hc
        have := List.all_eq_true.mp d1 c (List.elem_iff.mp (h c hc))
        have h2 := (Bool.and_eq_true_iff.mp this).2
        simpa using h2

theorem combined_node_ok (wname : String) (xo yo : Int) (nd : N8nNode)
    (hw : ∀ c ∈ wname.data, wfValidChars.contains c = true)
    (hn : validNode nd = true) :
    combined_node wname xo yo nd =
      .ok ⟨wname ++ "_" ++ nd.id, wname ++ "_" ++ nd.name, nd.type,
           ⟨nd.position.x + xo, nd.position.y + yo⟩, nd.parameters,
           nd.credentials, nd.retries, nd.retry_on_fail⟩ := by
  unfold validNode at hn
  rw [Bool.and_eq_true_iff] at hn
  have hr : nd.retries = 3 := by simpa using hn.2
  have hname : nodeNameOk (wname ++ "_" ++ nd.name) = true := by
    rw [nodeNameOk_iff]
    intro c hc
    rw [String.data_append, String.data_append] at hc
    rcases List.mem_append.mp hc with hc2 | hc2
    · rcases List.mem_append.mp hc2 with hc3 | hc3
      · exact hw c hc3
      · have : c = '_' := by simpa using hc3
        rw [this]; decide
    · exact (nodeNameOk_iff nd.name).mp hn.1 c hc2
  unfold combined_node mkN8nNode
  simp [hname, hr]

theorem combine_nodes_loop_ok (wname : String) (xo yo : Int)
    (ns : List N8nNode)
    (hw : ∀ c ∈ wname.data, wfValidChars.contains c = true)
    (hns : ns.all validNode = true) :
    ∃ ns', combine_nodes_loop wname xo yo ns = .ok ns' ∧
      ns'.map (fun n => n.id) = ns.map (fun n => wname ++ "_" ++ n.id) ∧
      ns'.length = ns.length := by
  induction ns with
  | nil => exact ⟨[], rfl, rfl, rfl⟩
  | cons nd rest ih =>
    rw [List.all_cons, Bool.and_eq_true_iff] at hns
    obtain ⟨ns', hns', hid, hlen⟩ := ih hns.2
    refine ⟨(⟨wname ++ "_" ++ nd.id, wname ++ "_" ++ nd.name, nd.type,
      ⟨nd.position.x + xo, nd.position.y + yo⟩, nd.parameters,
      nd.credentials, nd.retries, nd.retry_on_fail⟩ : N8nNode) :: ns',
      ?_, ?_, ?_⟩
    · simp [combine_nodes_loop, combined_node_ok wname xo yo nd hw hns.1,
        hns', Bind.bind, Except.bind]
    · simp [hid]
    · simp [hlen]

theorem combine_rewrite_conns_mono (wname : String)
    (src : List (String × JValue)) :
    ∀ (conns conns' : List (String × JValue)),
      combine_rewrite_conns wname src conns = .ok conns' →
      ∀ k, dictContains conns k = true → dictContains conns' k = true := by
  induction src with
  | nil =>
    intro conns conns' h k hk
    cases h
    exact hk
  | cons p rest ih =>
    intro conns conns' h k hk
    unfold combine_rewrite_conns at h ih
    rw [List.foldlM_cons] at h
    cases hp : p.2 with
    | jobj targets =>
      rw [hp] at h
      simp only [Bind.bind, Except.bind] at h
      exact ih _ _ h k (dictContains_insert_of _ _ _ _ hk)
    | null => rw [hp] at h; cases h
    | jbool b => rw [hp] at h; cases h
    | jnum n => rw [hp] at h; cases h
    | jstr s => rw [hp] at h; cases h
    | jarr l => rw [hp] at h; cases h

theorem combine_rewrite_conns_ok (wname : String)
    (src : List (String × JValue)) :
    ∀ conns : List (String × JValue),
      src.all (fun p => match p.2 with
        | JValue.jobj _ => true
        | _ => false) = true →
      ∃ conns', combine_rewrite_conns wname src conns = .ok conns' ∧
        ∀ s, dictContains src s = true →
          dictContains conns' (wname ++ "_" ++ s) = true := by
  induction src with
  | nil =>
    intro conns _
    exact ⟨conns, rfl, fun s hs => by simp [dictContains] at hs⟩
  | cons p rest ih =>
    intro conns hsh
    rw [List.all_cons, Bool.and_eq_true_iff] at hsh
    cases hp : p.2 with
    | jobj targets =>
      obtain ⟨conns', hconns', hmem⟩ := ih
        (dictInsert conns (wname ++ "_" ++ p.1)
          (.jobj (targets.foldl (fun inner q =>
            dictInsert inner q.1 (rewrite_destinations wname q.2)) [])))
        hsh.2
      have hstep : combine_rewrite_conns wname (p :: rest) conns =
          combine_rewrite_conns wname rest
            (dictInsert conns (wname ++ "_" ++ p.1)
              (.jobj (targets.foldl (fun inner q =>
                dictInsert inner q.1 (rewrite_destinations wname q.2)) []))) := by
        unfold combine_rewrite_conns
        rw [List.foldlM_cons, hp]
        simp [Bind.bind, Except.bind]
      refine ⟨conns', by rw [hstep]; exact hconns', ?_⟩
      intro s hs
      unfold dictContains at hs
      rw [List.any_cons] at hs
      rcases Bool.or_eq_true_iff.mp hs with h | h
      · have hps : p.1 = s := by simpa using h
        rw [← hps]
        exact combine_rewrite_conns_mono wname rest _ _ hconns' _
          (dictContains_insert_self _ _ _)
      · exact hmem s h
    | null => rw [hp] at hsh; simp at hsh
    | jbool b => rw [hp] at hsh; simp at hsh
    | jnum n => rw [hp] at hsh; simp at hsh
    | jstr s => rw [hp] at hsh; simp at hsh
    | jarr l => rw [hp] at hsh; simp at hsh

/-- C6: combining two constructible workflows (the second with
object-shaped connection targets, as produced by any vault file) yields a
workflow with exactly `len(W1.nodes) + len(W2.nodes)` nodes, and every
connection destination referencing an existing W2 node resolves after the
`<source_workflow_name>_` rewriting to an existing node id of the combined
graph; every W2 connection source key is present, prefixed, in the
combined connection map. -/
theorem C6_combine_two (W1 W2 : N8nWorkflow) (cname : String)
    (h1 : validWorkflow W1 = true) (h2 : validWorkflow W2 = true)
    (hsh : W2.connections.all (fun p => match p.2 with
      | JValue.jobj _ => true
      | _ => false) = true) :
    ∃ C, combine_workflows [W1, W2] cname = .ok C ∧
      C.nodes.length = W1.nodes.length + W2.nodes.length ∧
      (∀ dest : List (String × JValue), ∀ did : String,
        dictGet dest "node" = some (.jstr did) →
        did ∈ W2.nodes.map (fun n => n.id) →
        (W2.name ++ "_" ++ did) ∈ C.nodes.map (fun n => n.id)) ∧
      (∀ s, dictContains W2.connections s = true →
        dictContains C.connections (W2.name ++ "_" ++ s) = true) := by
  have hW2fix : wfNormalizeName W2.name = W2.name := by
    unfold validWorkflow at h2
    have := (Bool.and_eq_true_iff.mp (Bool.and_eq_true_iff.mp h2).1).1
    simpa using this
  have hW2chars : ∀ c ∈ W2.name.data, wfValidChars.contains c = true := by
    intro c hc
    rw [← hW2fix] at hc
    exact wfNormalizeName_chars W2.name c hc
  have hall2 : W2.nodes.all validNode = true := by
    unfold validWorkflow at h2
    exact (Bool.and_eq_true_iff.mp h2).2
  have hne1 : W1.nodes.isEmpty = false := by
    unfold validWorkflow at h1
    have := (Bool.and_eq_true_iff.mp (Bool.and_eq_true_iff.mp h1).1).2
    simpa using this
  obtain ⟨ns', hns', hid, hlen⟩ :=
    combine_nodes_loop_ok W2.name 400 0 W2.nodes hW2chars hall2
  obtain ⟨conns', hconns', hkeys⟩ :=
    combine_rewrite_conns_ok W2.name W2.connections W1.connections hsh
  refine ⟨⟨wfNormalizeName cname, W1.nodes ++ ns', conns', W1.settings,
    none, false, []⟩, ?_, ?_, ?_, ?_⟩
  · have hunfold : combine_workflows [W1, W2] cname = (do
        let init ← mkN8nWorkflow cname W1.nodes W1.connections W1.settings
          none false []
        let final ← List.foldlM combine_step (init, 400) [W2]
        Except.ok final.1) := rfl
    rw [hunfold]
    have hmk : mkN8nWorkflow cname W1.nodes W1.connections W1.settings
        none false [] = Except.ok ⟨wfNormalizeName cname, W1.nodes,
          W1.connections, W1.settings, none, false, []⟩ := by
      unfold mkN8nWorkflow
      simp [hne1]
    rw [hmk]
    simp only [Bind.bind, Except.bind, List.foldlM_cons, List.foldlM_nil,
      combine_step, hns', hconns']
    rfl
  · simp [hlen]
  · intro dest did hdest hdid
    rw [List.mem_map] at hdid
    obtain ⟨nd, hnd, hndid⟩ := hdid
    simp only [List.map_append, List.mem_append]
    right
    rw [hid, List.mem_map]
    exact ⟨nd, hnd, by rw [hndid]⟩
  · intro s hs
    exact hkeys s hs

/-- First combination source: one node. -/
def c6W1 : N8nWorkflow :=
  ⟨"w1", [⟨"a1", "a_node", "t", ⟨0, 0⟩, [], none, 3, true⟩],
   [], [], none, false, []⟩

/-- Second combination source: two nodes and a connection `b1 → b2`. -/
def c6W2 : N8nWorkflow :=
  ⟨"w2", [⟨"b1", "b_one", "t", ⟨0, 0⟩, [], none, 3, true⟩,
          ⟨"b2", "b_two", "t", ⟨200, 0⟩, [], none, 3, true⟩],
   [("b1", .jobj [("main", .jarr [.jobj
      [("node", .jstr "b2"), ("type", .jstr "main"),
       ("index", .jnum 0)]])])],
   [], none, false, []⟩

/-- C6, witness: the combination theorem applied to `c6W1` and `c6W2`. -/
theorem C6_combine_two_witness :
    ∃ C, combine_workflows [c6W1, c6W2] "combo" = .ok C ∧
      C.nodes.length = c6W1.nodes.length + c6W2.nodes.length ∧
      (∀ dest : List (String × JValue), ∀ did : String,
        dictGet dest "node" = some (.jstr did) →
        did ∈ c6W2.nodes.map (fun n => n.id) →
        (c6W2.name ++ "_" ++ did) ∈ C.nodes.map (fun n => n.id)) ∧
      (∀ s, dictContains c6W2.connections s = true →
        dictContains C.connections (c6W2.name ++ "_" ++ s) = true) :=
  C6_combine_two c6W1 c6W2 "combo" (by decide) (by decide) (by decide)
